import Mathlib

/-!
# Todo CLI (`main.go`): lifecycle operations on the stored collection

A shallow embedding of the task tracker of `main.go`.  Each lifecycle
function (`add`, `done`, `deleteTodo`) is embedded as a pure function of

* the collection returned by `loadTodos`,
* the values the function obtains from outside the program (the result of
  `time.Parse`, the readings of `time.Now`),

and returns the message it prints together with the argument of its call to
`saveTodos`, if it makes one.  Go's `int` is taken to be 64 bits wide and
`+` on it wraps around.

The store (`loadTodos`, `saveTodos`), the presentation (`format`, `list`) and
the command loop of `main` are embedded over a `Disk` that holds the file
`todos.json`.  The functions of the Go library that the program calls are the
fields of a parameter `Lib`; `strings.TrimSpace`, `strings.Fields` and the
padding of the `fmt` verbs are written out as documented.  A Go `string` is
taken to be valid UTF-8.
-/

namespace TodoCLI

/-! ## Data model -/

/-- A `time.Time` value: the wall-clock instant, in nanoseconds since the zero
instant, and the monotonic clock reading that `time.Now` attaches to its
result (absent on parsed values and on the zero value). -/
structure Time where
  wall : Int
  mono : Option Int
  deriving DecidableEq, Repr

/-- The zero value `time.Time{}`. -/
def Time.zero : Time := ⟨0, none⟩

/-- The record `type Todo struct` of `main.go`, field for field. -/
structure Todo where
  ID : Int
  Task : String
  Done : Bool
  Limit : Time
  CreatedAt : Time
  UpdatedAt : Time
  DeletedAt : Time
  IsDone : Bool
  IsDeleted : Bool
  deriving DecidableEq, Repr

/-- Reduction of an integer to the range of a 64-bit signed `int`
(two's complement wrap-around). -/
def wrapInt64 (x : Int) : Int := (x + 2 ^ 63) % 2 ^ 64 - 2 ^ 63

/-- The messages the lifecycle functions print.  The constructor names follow
the error kinds of the specification; `Msg.render` gives the printed text. -/
inductive Msg where
  /-- `add`: the deadline did not parse. -/
  | validationError
  /-- `add`: success, with the task description. -/
  | added (task : String)
  /-- `done`: success, with the task description. -/
  | completed (task : String)
  /-- `done`: the record is already done. -/
  | alreadyDone
  /-- `done`, `deleteTodo`: no record has the id. -/
  | notFound
  /-- `deleteTodo`: the record is done. -/
  | cannotDeleteCompleted
  /-- `deleteTodo`: the record is already deleted. -/
  | alreadyDeleted
  /-- `deleteTodo`: success, with the task description. -/
  | deleted (task : String)
  deriving DecidableEq, Repr

/-- The line printed for a message (the argument lists of `fmt.Println`). -/
def Msg.render : Msg → String
  | .validationError => "⚠️ 期限の形式が正しくありません\n"
  | .added task => "✅ Todo追加: " ++ task ++ "\n"
  | .completed task => "✅ 完了: " ++ task ++ "\n"
  | .alreadyDone => "⚠️ すでに完了しています\n"
  | .notFound => "⚠️ IDが見つかりません\n"
  | .cannotDeleteCompleted => "⚠️ 完了しているタスクは削除できません\n"
  | .alreadyDeleted => "⚠️ すでに削除されています\n"
  | .deleted task => "🗑️ 削除: " ++ task ++ "\n"

/-- What one call of a lifecycle function does: the message it prints and the
collection it passes to `saveTodos` (`none` when it returns without saving). -/
structure Outcome where
  msg : Msg
  written : Option (List Todo)
  deriving DecidableEq, Repr

/-! ## Lifecycle operations -/

/-- The id `add` gives the new record: `1`, or the id of the last stored
record plus one when the collection is not empty (lines 62-65). -/
def nextID (todos : List Todo) : Int :=
  match todos.getLast? with
  | none => 1
  | some l => wrapInt64 (l.ID + 1)

/-- `add` from line 55 on.  `input` is the trimmed deadline line, `parse` the
function `time.Parse("2006/01/02 15:04:05", ·)` (`none` for an error),
`todos` the loaded collection, `nowC` and `nowU` the results of the first and
of the second call of `time.Now` in the record literal of line 66. -/
def add (parse : String → Option Time) (todos : List Todo) (task input : String)
    (nowC nowU : Time) : Outcome :=
  match parse input with
  | none => ⟨.validationError, none⟩
  | some limit =>
    let todo : Todo :=
      { ID := nextID todos, Task := task, Done := false, Limit := limit,
        CreatedAt := nowC, UpdatedAt := nowU, DeletedAt := Time.zero,
        IsDone := false, IsDeleted := false }
    ⟨.added task, some (todos ++ [todo])⟩

/-- The loop `for i, t := range todos` of `done`, at index `i` with the
records from `i` on still to visit. -/
def doneLoop (id : Int) (todos : List Todo) : Nat → List Todo → Outcome
  | _, [] => ⟨.notFound, none⟩
  | i, t :: rest =>
    if t.ID = id ∧ t.IsDone = false then
      ⟨.completed t.Task, some (todos.set i { t with Done := true, IsDone := true })⟩
    else if t.ID = id then
      ⟨.alreadyDone, none⟩
    else
      doneLoop id todos (i + 1) rest

/-- `done(id)` on the loaded collection `todos`. -/
def done (todos : List Todo) (id : Int) : Outcome :=
  doneLoop id todos 0 todos

/-- The loop `for i, t := range todos` of `deleteTodo`, at index `i` with the
records from `i` on still to visit; `now` is the result of `time.Now`. -/
def deleteLoop (id : Int) (now : Time) (todos : List Todo) : Nat → List Todo → Outcome
  | _, [] => ⟨.notFound, none⟩
  | i, t :: rest =>
    if t.ID = id ∧ t.IsDone = true then
      ⟨.cannotDeleteCompleted, none⟩
    else if t.ID = id ∧ t.IsDeleted = true then
      ⟨.alreadyDeleted, none⟩
    else if t.ID = id then
      ⟨.deleted t.Task, some (todos.set i { t with IsDeleted := true, DeletedAt := now })⟩
    else
      deleteLoop id now todos (i + 1) rest

/-- `deleteTodo(id)` on the loaded collection `todos`. -/
def deleteTodo (todos : List Todo) (id : Int) (now : Time) : Outcome :=
  deleteLoop id now todos 0 todos

/-- The status label `list` derives for a record (lines 94-100). -/
def statusLabel (t : Todo) : String :=
  let status := "未完了"
  let status := if t.IsDone then "完了" else status
  let status := if t.IsDeleted then "削除済" else status
  status

/-! ## Sequences of operations -/

/-- One lifecycle operation with the values it obtains from outside. -/
inductive Op where
  | add (task input : String) (nowC nowU : Time)
  | complete (id : Int)
  | softDelete (id : Int) (now : Time)
  deriving DecidableEq, Repr

/-- The outcome of an operation on the loaded collection. -/
def Op.apply (parse : String → Option Time) (todos : List Todo) : Op → Outcome
  | .add task input nowC nowU => TodoCLI.add parse todos task input nowC nowU
  | .complete id => TodoCLI.done todos id
  | .softDelete id now => TodoCLI.deleteTodo todos id now

/-- The stored collection after an operation: what the operation saved, and
the collection as it was when the operation saved nothing. -/
def step (parse : String → Option Time) (todos : List Todo) (op : Op) : List Todo :=
  ((op.apply parse todos).written).getD todos

/-- The stored collection after a sequence of operations, from `todos`. -/
def runFrom (parse : String → Option Time) : List Todo → List Op → List Todo
  | todos, [] => todos
  | todos, op :: ops => runFrom parse (step parse todos op) ops

/-- The stored collection after a sequence of operations, from the empty
collection. -/
def run (parse : String → Option Time) (ops : List Op) : List Todo :=
  runFrom parse [] ops

/-! ## Vocabulary of the statements -/

/-- The ids `1, 2, ..., n`, in this order. -/
def idsUpTo (n : Nat) : List Int :=
  (List.range n).map (fun (k : Nat) => (k : Int) + 1)

/-- The largest id among the records, `none` for the empty collection. -/
def maxID : List Todo → Option Int
  | [] => none
  | t :: ts => some (ts.foldl (fun m u => max m u.ID) t.ID)

/-- The first record in stored order that has the id. -/
def firstWithID (todos : List Todo) (id : Int) : Option Todo :=
  todos.find? (fun t => decide (t.ID = id))

/-- Whether the operation is an `add` whose deadline parses. -/
def Op.addsRecord (parse : String → Option Time) : Op → Bool
  | .add _ input _ _ => (parse input).isSome
  | _ => false

/-- Whether the operation is a `complete(id)` met by a stored collection in
which the first record with that id is soft-deleted. -/
def completesDeleted (todos : List Todo) : Op → Bool
  | .complete id =>
    match firstWithID todos id with
    | some r => r.IsDeleted
    | none => false
  | _ => false

/-- Whether, running the operations from `todos`, no `complete(id)` is ever
applied to an id whose first record is soft-deleted at that moment. -/
def neverCompletesDeleted (parse : String → Option Time) : List Todo → List Op → Bool
  | _, [] => true
  | todos, op :: ops =>
    !completesDeleted todos op && neverCompletesDeleted parse (step parse todos op) ops

/-- A stand-in for `time.Parse` in the worked examples: it accepts the example
deadline shown by the prompt of `add` and rejects every other input. -/
def parseExample : String → Option Time :=
  fun s => if s = "2025/01/01 12:00:00" then some ⟨63871329600000000000, none⟩ else none

/-- A record for the worked examples, with the given id and flags. -/
def sampleTodo (id : Int) (isDone isDeleted : Bool) : Todo :=
  { ID := id, Task := "buy milk", Done := isDone, Limit := ⟨63871329600000000000, none⟩,
    CreatedAt := ⟨63870000000000000000, some 100⟩,
    UpdatedAt := ⟨63870000000000000150, some 250⟩,
    DeletedAt := Time.zero, IsDone := isDone, IsDeleted := isDeleted }

/-- A sequence of operations for the worked examples: two tasks are added, the
first is soft-deleted, a third is added, the second is completed, and an
`add` with a deadline that does not parse changes nothing. -/
def sampleOps : List Op :=
  [ .add "task A" "2025/01/01 12:00:00" ⟨63870000000000000000, some 100⟩
      ⟨63870000000000000150, some 250⟩,
    .add "task B" "2025/01/01 12:00:00" ⟨63870000001000000000, some 1000000100⟩
      ⟨63870000001000000150, some 1000000250⟩,
    .softDelete 1 ⟨63870000002000000000, some 2000000100⟩,
    .add "task C" "2025/01/01 12:00:00" ⟨63870000003000000000, some 3000000100⟩
      ⟨63870000003000000150, some 3000000250⟩,
    .complete 2,
    .add "task D" "tomorrow" ⟨63870000004000000000, some 4000000100⟩
      ⟨63870000004000000150, some 4000000250⟩ ]

/-- A clock reading for the worked examples. -/
def sampleNow : Time := ⟨63870000005000000000, some 5000000100⟩

/-! ## The store: `loadTodos`, `saveTodos` and the file `todos.json` -/

/-- The file `todos.json` as `os.ReadFile` finds it: missing
(`os.IsNotExist`), failing to be read for another reason, or read with its
contents.  `Doc` is the type of file contents. -/
inductive File (Doc : Type) where
  | absent
  | unreadable
  | data (doc : Doc)
  deriving DecidableEq, Repr

/-- The part of the file system the program touches: the file, and whether
`os.WriteFile` on it succeeds. -/
structure Disk (Doc : Type) where
  file : File Doc
  writable : Bool
  deriving DecidableEq, Repr

/-- The library functions the program calls, as parameters of the embedding.
`parse` is `time.Parse("2006/01/02 15:04:05", ·)` and `marshalIndent` is
`json.MarshalIndent(·, "", "  ")`, both with `none` for an error;
`formatTime` is `t.Format("2006/01/02 15:04:05")`; `atoi` is `strconv.Atoi`;
`isSpace` is `unicode.IsSpace`; `unmarshal` is `json.Unmarshal` into a nil
`[]Todo`, giving the value it leaves in the slice and whether it returns an
error.  `failedWrite data` is what an `os.WriteFile` of `data` that fails
leaves of the file: `none` when the file cannot be opened and stays as it
was, `some left` when the open has truncated the file and the write stops
with `left` in it (nothing, or a part of `data`). -/
structure Lib (Doc : Type) where
  parse : String → Option Time
  formatTime : Time → String
  atoi : String → Option Int
  isSpace : Char → Bool
  marshalIndent : List Todo → Option Doc
  unmarshal : Doc → List Todo × Bool
  failedWrite : Doc → Option Doc

/-- `loadTodos` (lines 28-39): the collection returned and whether an error is
returned with it. -/
def loadTodos {Doc : Type} (lib : Lib Doc) (d : Disk Doc) : List Todo × Bool :=
  match d.file with
  | .absent => ([], false)
  | .unreadable => ([], true)
  | .data doc => lib.unmarshal doc

/-- `saveTodos` (lines 41-47): the disk afterwards and whether an error is
returned.  When `json.MarshalIndent` fails nothing is written.  `os.WriteFile`
opens the file with truncation and then writes: when it fails, the file is as
it was if the open failed, and otherwise holds what the write left. -/
def saveTodos {Doc : Type} (lib : Lib Doc) (d : Disk Doc) (todos : List Todo) :
    Disk Doc × Bool :=
  match lib.marshalIndent todos with
  | none => (d, true)
  | some doc =>
    if d.writable then ({ d with file := .data doc }, false)
    else
      match lib.failedWrite doc with
      | none => (d, true)
      | some left => ({ d with file := .data left }, true)

/-- What a lifecycle function leaves behind: the disk and the message printed. -/
structure Effect (Doc : Type) where
  disk : Disk Doc
  msg : Msg

/-- A lifecycle function run against the disk.  Each of `add`, `done` and
`deleteTodo` takes the collection from `loadTodos` and drops the error
(`todos, _ := loadTodos()`), calls `saveTodos` on the path that changed the
collection and drops its result, and then prints its message. -/
def perform {Doc : Type} (lib : Lib Doc) (d : Disk Doc) (op : Op) : Effect Doc :=
  let out := op.apply lib.parse (loadTodos lib d).1
  match out.written with
  | none => ⟨d, out.msg⟩
  | some todos => ⟨(saveTodos lib d todos).1, out.msg⟩

/-- Whether a message is one of the three success messages. -/
def Msg.isSuccess : Msg → Bool
  | .added _ => true
  | .completed _ => true
  | .deleted _ => true
  | _ => false

/-- A timestamp without the monotonic clock reading: what the RFC 3339 text
written for a `time.Time` carries (package `time`: the serialized forms omit
the monotonic clock reading). -/
def Time.stored (t : Time) : Time := { t with mono := none }

/-- A record with each of its timestamps as the document carries it. -/
def Todo.stored (t : Todo) : Todo :=
  { t with Limit := t.Limit.stored, CreatedAt := t.CreatedAt.stored,
           UpdatedAt := t.UpdatedAt.stored, DeletedAt := t.DeletedAt.stored }

/-! ## A library for the worked examples -/

/-- The value of a run of decimal digits, `none` when another character occurs. -/
def readDigits (acc : Nat) : List Char → Option Nat
  | [] => some acc
  | c :: cs => if c.isDigit then readDigits (acc * 10 + (c.toNat - 48)) cs else none

/-- A stand-in for `strconv.Atoi` in the worked examples: an optional sign and
at least one decimal digit, with a value in the range of a 64-bit `int`. -/
def atoiExample (s : String) : Option Int :=
  let signed : Option Int :=
    match s.data with
    | [] => none
    | '-' :: cs => if cs = [] then none else (readDigits 0 cs).map (fun n => -(n : Int))
    | '+' :: cs => if cs = [] then none else (readDigits 0 cs).map (fun n => (n : Int))
    | cs => (readDigits 0 cs).map (fun n => (n : Int))
  signed.bind (fun v => if -2 ^ 63 ≤ v ∧ v < 2 ^ 63 then some v else none)

/-- A stand-in for `unicode.IsSpace` in the worked examples: the ASCII white
space characters. -/
def isSpaceExample (c : Char) : Bool :=
  c = ' ' || c = '\t' || c = '\n' || c = '\r' || c = '\x0b' || c = '\x0c'

/-- The library of the worked examples.  A document is `none` when it is not
JSON and otherwise the collection it encodes; encoding a collection keeps of
each timestamp what `Time.stored` keeps; a write that fails leaves the file
truncated to nothing, which is not JSON. -/
def exampleLib : Lib (Option (List Todo)) where
  parse := parseExample
  formatTime := fun _ => "2025/01/01 12:00:00"
  atoi := atoiExample
  isSpace := isSpaceExample
  marshalIndent := fun todos => some (some (todos.map Todo.stored))
  unmarshal := fun doc =>
    match doc with
    | none => ([], true)
    | some todos => (todos, false)
  failedWrite := fun _ => some none

/-! ## Presentation: `format` and `list` -/

/-- `utf8.RuneCountInString(s)`: the number of code points of the text. -/
def runeCount (s : String) : Nat := s.data.length

/-- `len(s)`: the number of bytes of the UTF-8 encoding of the text. -/
def byteLen (s : String) : Nat := (s.data.map Char.utf8Size).sum

/-- The verb `%-Ns` of `fmt`: the text, padded on the right with spaces up to
`n` code points. -/
def padRight (n : Nat) (s : String) : String :=
  ⟨s.data ++ List.replicate (n - s.data.length) ' '⟩

/-- The width `format` computes for a field of `total` columns (lines 73-80):
`total` minus the rune count, plus the byte length when the two counts agree. -/
def fieldWidth (total : Int) (s : String) : Int :=
  let len := total - (runeCount s : Int)
  if runeCount s = byteLen s then len + (byteLen s : Int) else len

/-- A field as `format` prints it, through the verb `"%-" + width + "s"` that
line 81 builds.  A negative width puts a second `-` flag in the verb, so the
text is padded to the magnitude of the width. -/
def padField (total : Int) (s : String) : String :=
  padRight (fieldWidth total s).natAbs s

/-- `format(id, status, task, limit)` (lines 72-83); `formatTime` is
`limit.Format("2006/01/02 15:04:05")`. -/
def format (formatTime : Time → String) (id : Int) (status task : String) (limit : Time) :
    String :=
  padRight 2 (toString id) ++ " " ++ padField 12 status ++ " " ++ padField 24 task ++ " " ++
    formatTime limit ++ "\n"

/-- The two header lines `list` prints (lines 91-92). -/
def listHeader : String :=
  padRight 2 "ID" ++ " " ++ padRight 7 "ステータス" ++ " " ++ padRight 21 "タスク" ++ " " ++
    padRight 19 "期限" ++ "\n" ++
  padRight 2 "--" ++ " " ++ padRight 12 "------------" ++ " " ++
    padRight 24 "------------------------" ++ " " ++ padRight 19 "-------------------" ++ "\n"

/-- What `list` prints (lines 85-103); the error of `loadTodos` is dropped. -/
def list {Doc : Type} (lib : Lib Doc) (d : Disk Doc) : String :=
  let todos := (loadTodos lib d).1
  if todos.length = 0 then "📭 Todoはありません\n"
  else
    listHeader ++
      String.join (todos.map fun t => format lib.formatTime t.ID (statusLabel t) t.Task t.Limit)

/-- The display columns a character takes, for text made of narrow characters
(one byte, one column) and wide characters (several bytes, two columns). -/
def charColumns (c : Char) : Nat := if c.utf8Size = 1 then 1 else 2

/-- The display columns a text takes. -/
def displayWidth (s : String) : Nat := (s.data.map charColumns).sum

/-! ## The command loop of `main` -/

/-- The library function `strings.TrimSpace`, as documented: the text without
its leading and trailing white space. -/
def trimSpace (isSpace : Char → Bool) (s : String) : String :=
  ⟨((s.data.dropWhile isSpace).reverse.dropWhile isSpace).reverse⟩

/-- The scan of `strings.Fields` over the characters still to read, with the
characters of the current token (latest first). -/
def fieldsFrom (isSpace : Char → Bool) : List Char → List Char → List String
  | [], cur => if cur.isEmpty then [] else [⟨cur.reverse⟩]
  | c :: cs, cur =>
    if isSpace c then
      if cur.isEmpty then fieldsFrom isSpace cs [] else ⟨cur.reverse⟩ :: fieldsFrom isSpace cs []
    else fieldsFrom isSpace cs (c :: cur)

/-- The library function `strings.Fields`, as documented: the text split
around each run of white space, with no token when it is all white space. -/
def fields (isSpace : Char → Bool) (s : String) : List String :=
  fieldsFrom isSpace s.data []

/-- What one iteration of the loop of `main` goes on to do once it has read a
line.  `crash` is the run-time panic of an index out of range. -/
inductive Action where
  | skip
  | help
  | missingTask
  | callAdd (task : String)
  | callList
  | missingID
  | badID
  | callDone (id : Int)
  | callDelete (id : Int)
  | quit
  | unknown (command : String)
  | crash
  deriving DecidableEq, Repr

/-- The `switch command` of `main` (lines 159-209) on the command token and
the argument tokens. -/
def dispatch {Doc : Type} (lib : Lib Doc) (command : String) (args : List String) : Action :=
  if command = "help" ∨ command = "h" then .help
  else if command = "add" ∨ command = "a" then
    if args.length = 0 then .missingTask
    else .callAdd (" ".intercalate args)
  else if command = "list" ∨ command = "l" then .callList
  else if command = "done" ∨ command = "d" then
    if args.length = 0 then .missingID
    else
      match args[0]? with
      | none => .crash
      | some a =>
        match lib.atoi a with
        | none => .badID
        | some id => .callDone id
  else if command = "delete" ∨ command = "del" then
    if args.length = 0 then .missingID
    else
      match args[0]? with
      | none => .crash
      | some a =>
        match lib.atoi a with
        | none => .badID
        | some id => .callDelete id
  else if command = "exit" ∨ command = "e" then .quit
  else .unknown command

/-- The body of the loop of `main` from the line read to the dispatch (lines
148-159): `parts[0]` and `parts[1:]` are taken from the tokens of the trimmed
line. -/
def action {Doc : Type} (lib : Lib Doc) (line : String) : Action :=
  let input := trimSpace lib.isSpace line
  if input = "" then .skip
  else
    match fields lib.isSpace input with
    | [] => .crash
    | command :: args => dispatch lib command args

/-- The text of the `help` command (lines 161-166). -/
def helpText : String :=
  "使用可能なコマンド:\n" ++
  "  add(a) <タスク名>      - タスクを追加\n" ++
  "  list(l)               - タスク一覧表示\n" ++
  "  done(d) <ID>          - 指定IDのタスクを完了\n" ++
  "  delete(del) <ID>      - 指定IDのタスクを削除\n" ++
  "  exit(e)               - 終了\n"

/-- An action carried out: the disk afterwards and the text printed.
`deadline` is the line `add` reads at its prompt, `now1` and `now2` are the
clock readings taken by the function called. -/
def Action.run {Doc : Type} (lib : Lib Doc) (d : Disk Doc) (deadline : String)
    (now1 now2 : Time) : Action → Disk Doc × String
  | .skip => (d, "")
  | .help => (d, helpText)
  | .missingTask => (d, "⚠️ タスクを入力してください\n")
  | .callAdd task =>
    let r := perform lib d (.add task (trimSpace lib.isSpace deadline) now1 now2)
    (r.disk, "📅 タスクの期限を入力してください (例: 2025/01/01 12:00:00)\n> " ++ r.msg.render)
  | .callList => (d, list lib d)
  | .missingID => (d, "⚠️ IDを入力してください\n")
  | .badID => (d, "⚠️ 数値のIDを入力してください\n")
  | .callDone id =>
    let r := perform lib d (.complete id)
    (r.disk, r.msg.render)
  | .callDelete id =>
    let r := perform lib d (.softDelete id now1)
    (r.disk, r.msg.render)
  | .quit => (d, "👋 終了します\n")
  | .unknown command => (d, "❓ 未知のコマンド: " ++ command ++ "\n")
  | .crash => (d, "")

/-! ## The document as JSON -/

/-- A JSON value at a member of a record of the document.  `number` is an
integer literal; `time wall` is the JSON string that `Time.MarshalJSON` writes
for the instant `wall`, its RFC 3339 text; `string` is a JSON string with any
other text. -/
inductive JValue where
  | null
  | bool (b : Bool)
  | number (n : Int)
  | string (s : String)
  | time (wall : Int)
  deriving DecidableEq, Repr

/-- A JSON object: its members, in the order of the text. -/
abbrev JObject := List (String × JValue)

/-- The contents of `todos.json` as `json.Unmarshal` meets them: text that it
rejects before it decodes anything, the literal `null`, or an array of
objects. -/
inductive JDoc where
  | invalid
  | null
  | array (objects : List JObject)
  deriving DecidableEq, Repr

/-- Whether the year of the instant lies in 0..9999, outside of which
`Time.MarshalJSON` returns an error: from 366 days before the zero instant up
to 3652059 days after it. -/
def Time.yearInRange (t : Time) : Bool :=
  decide (-(366 * 86400 * 10 ^ 9) ≤ t.wall ∧ t.wall < 3652059 * 86400 * 10 ^ 9)

/-- `Time.MarshalJSON`: the RFC 3339 text of the instant, without the
monotonic clock reading; `none` for its error. -/
def encodeTime (t : Time) : Option JValue :=
  if t.yearInRange then some (.time t.wall) else none

/-- `json.Marshal` of one `Todo`: a member for each field of the struct, in
the order of the fields, under the key of its tag (lines 15-23). -/
def encodeTodo (t : Todo) : Option JObject :=
  match encodeTime t.Limit, encodeTime t.CreatedAt, encodeTime t.UpdatedAt,
      encodeTime t.DeletedAt with
  | some limit, some created, some updated, some deleted =>
    some [("id", .number t.ID), ("task", .string t.Task), ("done", .bool t.Done),
      ("limit", limit), ("created_at", created), ("updated_at", updated),
      ("deleted_at", deleted), ("is_done", .bool t.IsDone),
      ("is_deleted", .bool t.IsDeleted)]
  | _, _, _, _ => none

/-- The objects for the records of a collection, `none` when one fails. -/
def encodeAll : List Todo → Option (List JObject)
  | [] => some []
  | t :: ts =>
    match encodeTodo t, encodeAll ts with
    | some o, some os => some (o :: os)
    | _, _ => none

/-- `json.MarshalIndent(todos, "", "  ")` on a `[]Todo`: an array with one
object for each record. -/
def marshalTodos (todos : List Todo) : Option JDoc :=
  (encodeAll todos).map .array

/-- The zero value of `Todo`, from which `json.Unmarshal` fills a new element
of the slice. -/
def zeroTodo : Todo :=
  { ID := 0, Task := "", Done := false, Limit := Time.zero, CreatedAt := Time.zero,
    UpdatedAt := Time.zero, DeletedAt := Time.zero, IsDone := false, IsDeleted := false }

/-- `json.Unmarshal` storing one member of an object into the record, with
whether an error has been met.  A `null` leaves the field as it is; a value
of the kind of the field is stored (an `id` within the 64-bit range); a value
of another kind under one of the nine keys is an error that leaves the field;
a member under another key is skipped.  Keys are compared exactly, and a
`time` value met under `task` counts as a value of another kind. -/
def storeMember (acc : Todo × Bool) (m : String × JValue) : Todo × Bool :=
  match m.1, m.2 with
  | _, .null => acc
  | "id", .number n =>
    if -2 ^ 63 ≤ n ∧ n < 2 ^ 63 then ({ acc.1 with ID := n }, acc.2) else (acc.1, true)
  | "task", .string s => ({ acc.1 with Task := s }, acc.2)
  | "done", .bool b => ({ acc.1 with Done := b }, acc.2)
  | "limit", .time w => ({ acc.1 with Limit := ⟨w, none⟩ }, acc.2)
  | "created_at", .time w => ({ acc.1 with CreatedAt := ⟨w, none⟩ }, acc.2)
  | "updated_at", .time w => ({ acc.1 with UpdatedAt := ⟨w, none⟩ }, acc.2)
  | "deleted_at", .time w => ({ acc.1 with DeletedAt := ⟨w, none⟩ }, acc.2)
  | "is_done", .bool b => ({ acc.1 with IsDone := b }, acc.2)
  | "is_deleted", .bool b => ({ acc.1 with IsDeleted := b }, acc.2)
  | key, _ =>
    if key ∈ ["id", "task", "done", "limit", "created_at", "updated_at", "deleted_at",
        "is_done", "is_deleted"] then (acc.1, true)
    else acc

/-- `json.Unmarshal` of one object into a `Todo`: the members are stored in
order into the zero value. -/
def decodeTodo (o : JObject) : Todo × Bool :=
  o.foldl storeMember (zeroTodo, false)

/-- `json.Unmarshal(data, &todos)` into the nil slice: the value left in
`todos` and whether an error is returned. -/
def unmarshalTodos : JDoc → List Todo × Bool
  | .invalid => ([], true)
  | .null => ([], false)
  | .array objects =>
    (objects.map fun o => (decodeTodo o).1, objects.any fun o => (decodeTodo o).2)

/-- The library of the worked examples with the document as JSON.  A write
that fails leaves the file truncated to nothing, which is not JSON. -/
def jsonLib : Lib JDoc where
  parse := parseExample
  formatTime := fun _ => "2025/01/01 12:00:00"
  atoi := atoiExample
  isSpace := isSpaceExample
  marshalIndent := marshalTodos
  unmarshal := unmarshalTodos
  failedWrite := fun _ => some .invalid

/-! ## The loops of `done` and `deleteTodo` -/

theorem set_length_append (a b : List Todo) (r x : Todo) :
    (a ++ r :: b).set a.length x = a ++ x :: b := by
  induction a with
  | nil => rfl
  | cons h a ih => simp [List.set, ih]

theorem split_first (id : Int) (todos : List Todo) :
    (∀ t ∈ todos, t.ID ≠ id) ∨
      ∃ a r b, todos = a ++ r :: b ∧ (∀ t ∈ a, t.ID ≠ id) ∧ r.ID = id := by
  induction todos with
  | nil => left; simp
  | cons h tl ih =>
    by_cases hh : h.ID = id
    · right; exact ⟨[], h, tl, rfl, by simp, hh⟩
    · rcases ih with hno | ⟨a, r, b, hsplit, ha, hr⟩
      · left
        intro t ht
        rcases List.mem_cons.mp ht with rfl | ht
        · exact hh
        · exact hno t ht
      · right
        refine ⟨h :: a, r, b, by simp [hsplit], ?_, hr⟩
        intro t ht
        rcases List.mem_cons.mp ht with rfl | ht
        · exact hh
        · exact ha t ht

theorem doneLoop_none (id : Int) (todos : List Todo) :
    ∀ (rest : List Todo) (i : Nat), (∀ t ∈ rest, t.ID ≠ id) →
      doneLoop id todos i rest = ⟨.notFound, none⟩ := by
  intro rest
  induction rest with
  | nil => intro i _; rfl
  | cons h tl ih =>
    intro i hno
    have hh : h.ID ≠ id := hno h (List.mem_cons_self _ _)
    have htl : ∀ t ∈ tl, t.ID ≠ id := fun t ht => hno t (List.mem_cons_of_mem _ ht)
    simp [doneLoop, hh, ih (i + 1) htl]

theorem doneLoop_first (id : Int) (todos : List Todo) (r : Todo) (b : List Todo)
    (hr : r.ID = id) :
    ∀ (a : List Todo) (i : Nat), (∀ t ∈ a, t.ID ≠ id) →
      doneLoop id todos i (a ++ r :: b) =
        if r.IsDone = false then
          ⟨.completed r.Task,
            some (todos.set (i + a.length) { r with Done := true, IsDone := true })⟩
        else ⟨.alreadyDone, none⟩ := by
  intro a
  induction a with
  | nil =>
    intro i _
    by_cases hd : r.IsDone = false <;> simp [doneLoop, hr, hd]
  | cons h tl ih =>
    intro i hno
    have hh : h.ID ≠ id := hno h (List.mem_cons_self _ _)
    have htl : ∀ t ∈ tl, t.ID ≠ id := fun t ht => hno t (List.mem_cons_of_mem _ ht)
    have e := ih (i + 1) htl
    have hlen : i + 1 + tl.length = i + (h :: tl).length := by
      simp only [List.length_cons]; omega
    rw [hlen] at e
    rw [← e]
    simp [doneLoop, hh]

theorem deleteLoop_none (id : Int) (now : Time) (todos : List Todo) :
    ∀ (rest : List Todo) (i : Nat), (∀ t ∈ rest, t.ID ≠ id) →
      deleteLoop id now todos i rest = ⟨.notFound, none⟩ := by
  intro rest
  induction rest with
  | nil => intro i _; rfl
  | cons h tl ih =>
    intro i hno
    have hh : h.ID ≠ id := hno h (List.mem_cons_self _ _)
    have htl : ∀ t ∈ tl, t.ID ≠ id := fun t ht => hno t (List.mem_cons_of_mem _ ht)
    simp [deleteLoop, hh, ih (i + 1) htl]

theorem deleteLoop_first (id : Int) (now : Time) (todos : List Todo) (r : Todo)
    (b : List Todo) (hr : r.ID = id) :
    ∀ (a : List Todo) (i : Nat), (∀ t ∈ a, t.ID ≠ id) →
      deleteLoop id now todos i (a ++ r :: b) =
        if r.IsDone = true then ⟨.cannotDeleteCompleted, none⟩
        else if r.IsDeleted = true then ⟨.alreadyDeleted, none⟩
        else
          ⟨.deleted r.Task,
            some (todos.set (i + a.length) { r with IsDeleted := true, DeletedAt := now })⟩ := by
  intro a
  induction a with
  | nil =>
    intro i _
    by_cases hd : r.IsDone = true <;> by_cases he : r.IsDeleted = true <;>
      simp [deleteLoop, hr, hd, he]
  | cons h tl ih =>
    intro i hno
    have hh : h.ID ≠ id := hno h (List.mem_cons_self _ _)
    have htl : ∀ t ∈ tl, t.ID ≠ id := fun t ht => hno t (List.mem_cons_of_mem _ ht)
    have e := ih (i + 1) htl
    have hlen : i + 1 + tl.length = i + (h :: tl).length := by
      simp only [List.length_cons]; omega
    rw [hlen] at e
    rw [← e]
    simp [deleteLoop, hh]

/-! ## The effect of one operation on the stored collection -/

theorem done_eq_of_split (id : Int) (a b : List Todo) (r : Todo)
    (ha : ∀ t ∈ a, t.ID ≠ id) (hr : r.ID = id) :
    done (a ++ r :: b) id =
      if r.IsDone = false then
        ⟨.completed r.Task, some (a ++ { r with Done := true, IsDone := true } :: b)⟩
      else ⟨.alreadyDone, none⟩ := by
  unfold done
  rw [doneLoop_first id (a ++ r :: b) r b hr a 0 ha, Nat.zero_add, set_length_append]

theorem deleteTodo_eq_of_split (id : Int) (now : Time) (a b : List Todo) (r : Todo)
    (ha : ∀ t ∈ a, t.ID ≠ id) (hr : r.ID = id) :
    deleteTodo (a ++ r :: b) id now =
      if r.IsDone = true then ⟨.cannotDeleteCompleted, none⟩
      else if r.IsDeleted = true then ⟨.alreadyDeleted, none⟩
      else
        ⟨.deleted r.Task, some (a ++ { r with IsDeleted := true, DeletedAt := now } :: b)⟩ := by
  unfold deleteTodo
  rw [deleteLoop_first id now (a ++ r :: b) r b hr a 0 ha, Nat.zero_add, set_length_append]

theorem step_cases (parse : String → Option Time) (todos : List Todo) (op : Op) :
    step parse todos op = todos ∨
    (∃ task input nowC nowU limit, op = .add task input nowC nowU ∧
      parse input = some limit ∧
      step parse todos op = todos ++
        [{ ID := nextID todos, Task := task, Done := false, Limit := limit,
           CreatedAt := nowC, UpdatedAt := nowU, DeletedAt := Time.zero,
           IsDone := false, IsDeleted := false }]) ∨
    (∃ id a r b, op = .complete id ∧ todos = a ++ r :: b ∧ (∀ t ∈ a, t.ID ≠ id) ∧
      r.ID = id ∧ r.IsDone = false ∧
      step parse todos op = a ++ { r with Done := true, IsDone := true } :: b) ∨
    (∃ id now a r b, op = .softDelete id now ∧ todos = a ++ r :: b ∧
      (∀ t ∈ a, t.ID ≠ id) ∧ r.ID = id ∧ r.IsDone = false ∧ r.IsDeleted = false ∧
      step parse todos op = a ++ { r with IsDeleted := true, DeletedAt := now } :: b) := by
  cases op with
  | add task input nowC nowU =>
    cases hp : parse input with
    | none => left; simp [step, Op.apply, add, hp]
    | some limit =>
      right; left
      exact ⟨task, input, nowC, nowU, limit, rfl, hp, by simp [step, Op.apply, add, hp]⟩
  | complete id =>
    rcases split_first id todos with hno | ⟨a, r, b, hsplit, ha, hr⟩
    · left
      simp [step, Op.apply, done, doneLoop_none id todos todos 0 hno]
    · by_cases hd : r.IsDone = false
      · right; right; left
        refine ⟨id, a, r, b, rfl, hsplit, ha, hr, hd, ?_⟩
        simp [step, Op.apply, hsplit, done_eq_of_split id a b r ha hr, hd]
      · left
        simp [step, Op.apply, hsplit, done_eq_of_split id a b r ha hr, hd]
  | softDelete id now =>
    rcases split_first id todos with hno | ⟨a, r, b, hsplit, ha, hr⟩
    · left
      simp [step, Op.apply, deleteTodo, deleteLoop_none id now todos todos 0 hno]
    · by_cases hd : r.IsDone = true
      · left
        simp [step, Op.apply, hsplit, deleteTodo_eq_of_split id now a b r ha hr, hd]
      · by_cases he : r.IsDeleted = true
        · left
          simp [step, Op.apply, hsplit, deleteTodo_eq_of_split id now a b r ha hr, hd, he]
        · right; right; right
          refine ⟨id, now, a, r, b, rfl, hsplit, ha, hr, by simpa using hd, by simpa using he, ?_⟩
          simp [step, Op.apply, hsplit, deleteTodo_eq_of_split id now a b r ha hr, hd, he]

theorem getElem?_replace_mid (a b : List Todo) (r x : Todo) :
    ∀ (i : Nat) (t : Todo), (a ++ r :: b)[i]? = some t →
      ∃ u, (a ++ x :: b)[i]? = some u ∧ (u = t ∨ (t = r ∧ u = x)) := by
  induction a with
  | nil =>
    intro i t h
    cases i with
    | zero =>
      simp at h
      exact ⟨x, by simp, Or.inr ⟨h.symm, rfl⟩⟩
    | succ j =>
      simp at h
      exact ⟨t, by simpa using h, Or.inl rfl⟩
  | cons h tl ih =>
    intro i t hi
    cases i with
    | zero =>
      simp at hi
      exact ⟨t, by simp [hi], Or.inl rfl⟩
    | succ j =>
      simp at hi
      obtain ⟨u, hu, hrel⟩ := ih j t hi
      exact ⟨u, by simpa using hu, hrel⟩

/-- Every record keeps its position through an operation, and is related to
the record at that position afterwards by any relation that is reflexive and
holds across the two in-place updates. -/
theorem step_rel (R : Todo → Todo → Prop) (hrefl : ∀ t, R t t)
    (hdone : ∀ r : Todo, r.IsDone = false → R r { r with Done := true, IsDone := true })
    (hdel : ∀ (r : Todo) (now : Time), r.IsDone = false → r.IsDeleted = false →
      R r { r with IsDeleted := true, DeletedAt := now })
    (parse : String → Option Time) (todos : List Todo) (op : Op) (i : Nat) (t : Todo)
    (hi : todos[i]? = some t) :
    ∃ u, (step parse todos op)[i]? = some u ∧ R t u := by
  rcases step_cases parse todos op with h | ⟨_, _, _, _, _, _, _, h⟩ |
      ⟨_, a, r, b, _, hs, _, _, hd, h⟩ | ⟨_, now, a, r, b, _, hs, _, _, hd, he, h⟩
  · exact ⟨t, by rw [h]; exact hi, hrefl t⟩
  · refine ⟨t, ?_, hrefl t⟩
    rw [h]
    have hlt : i < todos.length := by
      rcases Nat.lt_or_ge i todos.length with hlt | hge
      · exact hlt
      · rw [List.getElem?_eq_none hge] at hi; cases hi
    rw [List.getElem?_append_left hlt]
    exact hi
  · rw [hs] at hi
    obtain ⟨u, hu, hrel⟩ := getElem?_replace_mid a b r _ i t hi
    refine ⟨u, by rw [h]; exact hu, ?_⟩
    rcases hrel with rfl | ⟨rfl, rfl⟩
    · exact hrefl _
    · exact hdone _ hd
  · rw [hs] at hi
    obtain ⟨u, hu, hrel⟩ := getElem?_replace_mid a b r _ i t hi
    refine ⟨u, by rw [h]; exact hu, ?_⟩
    rcases hrel with rfl | ⟨rfl, rfl⟩
    · exact hrefl _
    · exact hdel _ now hd he

/-! ## Lengths and ids along a run -/

theorem step_length (parse : String → Option Time) (todos : List Todo) (op : Op) :
    (step parse todos op).length =
      todos.length + (if op.addsRecord parse = true then 1 else 0) := by
  rcases step_cases parse todos op with h | ⟨_, _, _, _, _, rfl, hp, h⟩ |
      ⟨_, a, r, b, rfl, hs, _, _, _, h⟩ | ⟨_, now, a, r, b, rfl, hs, _, _, _, _, h⟩
  · cases op with
    | add task input nowC nowU =>
      cases hp : parse input with
      | none => simp [h, Op.addsRecord, hp]
      | some limit =>
        exfalso
        have hl := congrArg List.length h
        simp [step, Op.apply, add, hp] at hl
    | complete id => simp [h, Op.addsRecord]
    | softDelete id now => simp [h, Op.addsRecord]
  · simp [h, Op.addsRecord, hp]
  · rw [h]; simp [hs, Op.addsRecord]
  · rw [h]; simp [hs, Op.addsRecord]

theorem runFrom_length (parse : String → Option Time) :
    ∀ (ops : List Op) (todos : List Todo),
      (runFrom parse todos ops).length =
        todos.length + (ops.filter (Op.addsRecord parse)).length := by
  intro ops
  induction ops with
  | nil => intro todos; simp [runFrom]
  | cons op ops ih =>
    intro todos
    rw [runFrom, ih, step_length]
    cases hb : op.addsRecord parse with
    | true => simp [List.filter_cons, hb]; omega
    | false => simp [List.filter_cons, hb]

theorem wrapInt64_of_range (x : Int) (hlo : -2 ^ 63 ≤ x) (hhi : x < 2 ^ 63) :
    wrapInt64 x = x := by
  unfold wrapInt64
  omega

theorem idsUpTo_succ (n : Nat) : idsUpTo (n + 1) = idsUpTo n ++ [(n : Int) + 1] := by
  simp [idsUpTo, List.range_succ]

theorem nextID_of_ids (todos : List Todo)
    (hinv : todos.map (fun t => t.ID) = idsUpTo todos.length) :
    nextID todos = wrapInt64 ((todos.length : Int) + 1) := by
  rcases List.eq_nil_or_concat todos with rfl | ⟨init, l, rfl⟩
  · decide
  · have hl : l.ID = (init.length : Int) + 1 := by
      simp only [List.concat_eq_append, List.map_append, List.map_cons, List.map_nil,
        List.length_append, List.length_singleton, idsUpTo_succ] at hinv
      have := congrArg List.getLast? hinv
      simpa using this
    simp [nextID, hl, List.concat_eq_append]

theorem step_ids (parse : String → Option Time) (todos : List Todo) (op : Op)
    (hinv : todos.map (fun t => t.ID) = idsUpTo todos.length)
    (hfit : (step parse todos op).length < 2 ^ 63) :
    (step parse todos op).map (fun t => t.ID) = idsUpTo (step parse todos op).length := by
  rcases step_cases parse todos op with h | ⟨_, _, _, _, _, rfl, hp, h⟩ |
      ⟨_, a, r, b, rfl, hs, _, _, _, h⟩ | ⟨_, now, a, r, b, rfl, hs, _, _, _, _, h⟩
  · rw [h]; exact hinv
  · rw [h] at hfit ⊢
    simp only [List.length_append, List.length_singleton] at hfit
    have hw : wrapInt64 ((todos.length : Int) + 1) = (todos.length : Int) + 1 := by
      apply wrapInt64_of_range <;> omega
    simp [idsUpTo_succ, hinv, nextID_of_ids todos hinv, hw]
  · rw [h]
    rw [hs] at hinv
    simpa using hinv
  · rw [h]
    rw [hs] at hinv
    simpa using hinv

theorem runFrom_ids (parse : String → Option Time) :
    ∀ (ops : List Op) (todos : List Todo),
      todos.map (fun t => t.ID) = idsUpTo todos.length →
      (runFrom parse todos ops).length < 2 ^ 63 →
      (runFrom parse todos ops).map (fun t => t.ID) =
        idsUpTo (runFrom parse todos ops).length := by
  intro ops
  induction ops with
  | nil => intro todos hinv _; simpa [runFrom] using hinv
  | cons op ops ih =>
    intro todos hinv hfit
    rw [runFrom] at hfit ⊢
    apply ih _ _ hfit
    apply step_ids parse todos op hinv
    have := runFrom_length parse ops (step parse todos op)
    omega

/-! ## Flags along a run -/

theorem firstWithID_of_split (id : Int) (a b : List Todo) (r : Todo)
    (ha : ∀ t ∈ a, t.ID ≠ id) (hr : r.ID = id) :
    firstWithID (a ++ r :: b) id = some r := by
  induction a with
  | nil => simp [firstWithID, hr]
  | cons h tl ih =>
    have hh : h.ID ≠ id := ha h (List.mem_cons_self _ _)
    have htl : ∀ t ∈ tl, t.ID ≠ id := fun t ht => ha t (List.mem_cons_of_mem _ ht)
    have := ih htl
    simp only [firstWithID] at this ⊢
    simp [List.find?, hh, this]

theorem step_flags_exclusive (parse : String → Option Time) (todos : List Todo) (op : Op)
    (hinv : ∀ t ∈ todos, ¬ (t.IsDone = true ∧ t.IsDeleted = true))
    (hop : completesDeleted todos op = false) :
    ∀ t ∈ step parse todos op, ¬ (t.IsDone = true ∧ t.IsDeleted = true) := by
  rcases step_cases parse todos op with h | ⟨_, _, _, _, _, rfl, hp, h⟩ |
      ⟨id, a, r, b, rfl, hs, ha, hr, hd, h⟩ | ⟨_, now, a, r, b, rfl, hs, _, _, hd, _, h⟩
  · rw [h]; exact hinv
  · rw [h]
    intro t ht
    rcases List.mem_append.mp ht with ht | ht
    · exact hinv t ht
    · have : t = _ := List.mem_singleton.mp ht
      subst this
      simp
  · rw [h]
    have hnd : r.IsDeleted = false := by
      simpa [completesDeleted, hs, firstWithID_of_split id a b r ha hr] using hop
    intro t ht
    rcases List.mem_append.mp ht with ht | ht
    · exact hinv t (by rw [hs]; exact List.mem_append_left _ ht)
    · rcases List.mem_cons.mp ht with rfl | ht
      · simp [hnd]
      · exact hinv t (by rw [hs]; exact List.mem_append_right _ (List.mem_cons_of_mem _ ht))
  · rw [h]
    intro t ht
    rcases List.mem_append.mp ht with ht | ht
    · exact hinv t (by rw [hs]; exact List.mem_append_left _ ht)
    · rcases List.mem_cons.mp ht with rfl | ht
      · simp [hd]
      · exact hinv t (by rw [hs]; exact List.mem_append_right _ (List.mem_cons_of_mem _ ht))

theorem runFrom_flags_exclusive (parse : String → Option Time) :
    ∀ (ops : List Op) (todos : List Todo),
      (∀ t ∈ todos, ¬ (t.IsDone = true ∧ t.IsDeleted = true)) →
      neverCompletesDeleted parse todos ops = true →
      ∀ t ∈ runFrom parse todos ops, ¬ (t.IsDone = true ∧ t.IsDeleted = true) := by
  intro ops
  induction ops with
  | nil => intro todos hinv _; simpa [runFrom] using hinv
  | cons op ops ih =>
    intro todos hinv hn
    simp only [neverCompletesDeleted, Bool.and_eq_true, Bool.not_eq_true',
      Bool.not_eq_eq_eq_not, Bool.not_true] at hn
    rw [runFrom]
    exact ih _ (step_flags_exclusive parse todos op hinv hn.1) hn.2

/-! ## The claims -/

/-- C1: starting from the empty collection, after any sequence of add,
complete(id) and softDelete(id) operations, the stored records have the ids
1, 2, ..., n in stored order, where n is the number of adds whose deadline
parsed: the k-th successful add assigned the id k.  The collection is one a Go
slice can hold (fewer than 2^63 records), so that the 64-bit id does not wrap. -/
theorem ids_are_one_to_n (parse : String → Option Time) (ops : List Op)
    (hfit : (run parse ops).length < 2 ^ 63) :
    (run parse ops).map (fun t => t.ID) = idsUpTo (run parse ops).length ∧
      (run parse ops).length = (ops.filter (Op.addsRecord parse)).length := by
  refine ⟨runFrom_ids parse ops [] rfl hfit, ?_⟩
  simpa [run] using runFrom_length parse ops []

theorem ids_are_one_to_n_witness :
    (run parseExample sampleOps).length < 2 ^ 63 ∧
      ((run parseExample sampleOps).map (fun t => t.ID) =
          idsUpTo (run parseExample sampleOps).length ∧
        (run parseExample sampleOps).length =
          (sampleOps.filter (Op.addsRecord parseExample)).length) :=
  ⟨by decide, ids_are_one_to_n parseExample sampleOps (by decide)⟩

/-- C2, as stated, fails: soft-deleting the record with id 1 and then
completing it is accepted, the record then has both flags set, and `list`
labels it through the branch where deleted overrides done. -/
theorem both_flags_reachable :
    ∃ t ∈ run parseExample
        [ .add "buy milk" "2025/01/01 12:00:00" ⟨63870000000000000000, some 100⟩
            ⟨63870000000000000150, some 250⟩,
          .softDelete 1 sampleNow,
          .complete 1 ],
      t.IsDone = true ∧ t.IsDeleted = true ∧ statusLabel t = "削除済" := by
  decide

/-- C2, amended: in every collection reached from the empty collection by add,
complete(id) and softDelete(id) operations among which no complete(id) is
applied while the first record with that id is soft-deleted, no record has
isDone and isDeleted both true. -/
theorem flags_exclusive_unless_deleted_is_completed (parse : String → Option Time)
    (ops : List Op) (hops : neverCompletesDeleted parse [] ops = true) :
    ∀ t ∈ run parse ops, ¬ (t.IsDone = true ∧ t.IsDeleted = true) :=
  runFrom_flags_exclusive parse ops [] (by simp) hops

theorem flags_exclusive_unless_deleted_is_completed_witness :
    neverCompletesDeleted parseExample [] sampleOps = true ∧
      ∀ t ∈ run parseExample sampleOps, ¬ (t.IsDone = true ∧ t.IsDeleted = true) :=
  ⟨by decide, flags_exclusive_unless_deleted_is_completed parseExample sampleOps (by decide)⟩

/-- C3: for every collection and every operation, a record that is done and
not deleted before the operation is at the same position and still not deleted
after it; and softDelete(id) on a collection whose first record with that id
is done reports CannotDeleteCompletedError, saves nothing and leaves the
collection as it was, whatever the isDeleted flag of that record. -/
theorem done_record_is_never_deleted (parse : String → Option Time) (todos : List Todo) :
    (∀ (op : Op) (i : Nat) (t : Todo), todos[i]? = some t → t.IsDone = true →
        t.IsDeleted = false →
        ∃ u, (step parse todos op)[i]? = some u ∧ u.IsDeleted = false) ∧
    (∀ (id : Int) (now : Time) (a b : List Todo) (r : Todo), todos = a ++ r :: b →
        (∀ t ∈ a, t.ID ≠ id) → r.ID = id → r.IsDone = true →
        deleteTodo todos id now = ⟨.cannotDeleteCompleted, none⟩ ∧
          step parse todos (.softDelete id now) = todos) := by
  constructor
  · intro op i t hi hd hnd
    obtain ⟨u, hu, hrel⟩ := step_rel
      (fun t u => t.IsDone = true → t.IsDeleted = false → u.IsDeleted = false)
      (fun _ _ h => h) (fun r hr hd => by simp [hr] at hd)
      (fun r _ hr _ hd => by simp [hr] at hd) parse todos op i t hi
    exact ⟨u, hu, hrel hd hnd⟩
  · intro id now a b r hs ha hr hd
    have h : deleteTodo todos id now = ⟨.cannotDeleteCompleted, none⟩ := by
      rw [hs, deleteTodo_eq_of_split id now a b r ha hr, if_pos hd]
    exact ⟨h, by simp [step, Op.apply, h]⟩

theorem done_record_is_never_deleted_witness :
    (∃ u, (step parseExample [sampleTodo 1 true false, sampleTodo 2 true true]
        (.softDelete 1 sampleNow))[0]? = some u ∧ u.IsDeleted = false) ∧
    (deleteTodo [sampleTodo 1 true false, sampleTodo 2 true true] 2 sampleNow =
        ⟨.cannotDeleteCompleted, none⟩ ∧
      step parseExample [sampleTodo 1 true false, sampleTodo 2 true true]
        (.softDelete 2 sampleNow) = [sampleTodo 1 true false, sampleTodo 2 true true]) :=
  ⟨(done_record_is_never_deleted parseExample
      [sampleTodo 1 true false, sampleTodo 2 true true]).1
      (.softDelete 1 sampleNow) 0 (sampleTodo 1 true false) rfl rfl rfl,
   (done_record_is_never_deleted parseExample
      [sampleTodo 1 true false, sampleTodo 2 true true]).2
      2 sampleNow [sampleTodo 1 true false] [] (sampleTodo 2 true true) rfl
      (by decide) rfl rfl⟩

/-- C4: complete(id) reports NotFoundError and saves nothing when no record
has the id; otherwise, with r the first record in stored order that has the
id, it reports AlreadyDoneError and saves nothing when r is done, and when r is
not done it reports success and saves the collection in which r has its done
flags set and every other field, and every other record, is as before. -/
theorem complete_behaviour (todos : List Todo) (id : Int) :
    ((∀ t ∈ todos, t.ID ≠ id) → done todos id = ⟨.notFound, none⟩) ∧
    (∀ (a b : List Todo) (r : Todo), todos = a ++ r :: b → (∀ t ∈ a, t.ID ≠ id) →
      r.ID = id →
      (r.IsDone = true → done todos id = ⟨.alreadyDone, none⟩) ∧
      (r.IsDone = false →
        done todos id =
          ⟨.completed r.Task,
            some (a ++
              { ID := r.ID, Task := r.Task, Done := true, Limit := r.Limit,
                CreatedAt := r.CreatedAt, UpdatedAt := r.UpdatedAt,
                DeletedAt := r.DeletedAt, IsDone := true, IsDeleted := r.IsDeleted } :: b)⟩)) := by
  constructor
  · intro hno
    exact doneLoop_none id todos todos 0 hno
  · intro a b r hs ha hr
    constructor
    · intro hd
      rw [hs, done_eq_of_split id a b r ha hr]
      simp [hd]
    · intro hd
      rw [hs, done_eq_of_split id a b r ha hr]
      simp [hd]

theorem complete_behaviour_witness :
    done [sampleTodo 1 true false, sampleTodo 2 false true] 3 = ⟨.notFound, none⟩ ∧
    done [sampleTodo 1 true false, sampleTodo 2 false true] 1 = ⟨.alreadyDone, none⟩ ∧
    done [sampleTodo 1 true false, sampleTodo 2 false true] 2 =
      ⟨.completed "buy milk", some [sampleTodo 1 true false, sampleTodo 2 true true]⟩ :=
  ⟨(complete_behaviour [sampleTodo 1 true false, sampleTodo 2 false true] 3).1 (by decide),
   ((complete_behaviour [sampleTodo 1 true false, sampleTodo 2 false true] 1).2
      [] [sampleTodo 2 false true] (sampleTodo 1 true false) rfl (by decide) rfl).1 rfl,
   ((complete_behaviour [sampleTodo 1 true false, sampleTodo 2 false true] 2).2
      [sampleTodo 1 true false] [] (sampleTodo 2 false true) rfl (by decide) rfl).2 rfl⟩

/-- C5: softDelete(id) follows the guard chain not-found, done,
already-deleted, success: it reports NotFoundError when no record has the id;
otherwise, with r the first record in stored order that has the id, it reports
CannotDeleteCompletedError when r is done, else AlreadyDeletedError when r is
deleted, and saves nothing in these three cases; else it reports success and
saves the collection in which r has isDeleted set and deletedAt equal to the
current time, every other field and every other record being as before. -/
theorem softDelete_guard_chain (todos : List Todo) (id : Int) (now : Time) :
    ((∀ t ∈ todos, t.ID ≠ id) → deleteTodo todos id now = ⟨.notFound, none⟩) ∧
    (∀ (a b : List Todo) (r : Todo), todos = a ++ r :: b → (∀ t ∈ a, t.ID ≠ id) →
      r.ID = id →
      (r.IsDone = true → deleteTodo todos id now = ⟨.cannotDeleteCompleted, none⟩) ∧
      (r.IsDone = false → r.IsDeleted = true →
        deleteTodo todos id now = ⟨.alreadyDeleted, none⟩) ∧
      (r.IsDone = false → r.IsDeleted = false →
        deleteTodo todos id now =
          ⟨.deleted r.Task,
            some (a ++
              { ID := r.ID, Task := r.Task, Done := r.Done, Limit := r.Limit,
                CreatedAt := r.CreatedAt, UpdatedAt := r.UpdatedAt,
                DeletedAt := now, IsDone := r.IsDone, IsDeleted := true } :: b)⟩)) := by
  constructor
  · intro hno
    exact deleteLoop_none id now todos todos 0 hno
  · intro a b r hs ha hr
    refine ⟨?_, ?_, ?_⟩
    · intro hd
      rw [hs, deleteTodo_eq_of_split id now a b r ha hr]
      simp [hd]
    · intro hd he
      rw [hs, deleteTodo_eq_of_split id now a b r ha hr]
      simp [hd, he]
    · intro hd he
      rw [hs, deleteTodo_eq_of_split id now a b r ha hr]
      simp [hd, he]

theorem softDelete_guard_chain_witness :
    deleteTodo [sampleTodo 1 true true, sampleTodo 2 false true, sampleTodo 3 false false]
        4 sampleNow = ⟨.notFound, none⟩ ∧
    deleteTodo [sampleTodo 1 true true, sampleTodo 2 false true, sampleTodo 3 false false]
        1 sampleNow = ⟨.cannotDeleteCompleted, none⟩ ∧
    deleteTodo [sampleTodo 1 true true, sampleTodo 2 false true, sampleTodo 3 false false]
        2 sampleNow = ⟨.alreadyDeleted, none⟩ ∧
    deleteTodo [sampleTodo 1 true true, sampleTodo 2 false true, sampleTodo 3 false false]
        3 sampleNow =
      ⟨.deleted "buy milk",
        some [sampleTodo 1 true true, sampleTodo 2 false true,
          { sampleTodo 3 false true with DeletedAt := sampleNow }]⟩ :=
  ⟨(softDelete_guard_chain
      [sampleTodo 1 true true, sampleTodo 2 false true, sampleTodo 3 false false]
      4 sampleNow).1 (by decide),
   ((softDelete_guard_chain
      [sampleTodo 1 true true, sampleTodo 2 false true, sampleTodo 3 false false]
      1 sampleNow).2 [] [sampleTodo 2 false true, sampleTodo 3 false false]
      (sampleTodo 1 true true) rfl (by decide) rfl).1 rfl,
   ((softDelete_guard_chain
      [sampleTodo 1 true true, sampleTodo 2 false true, sampleTodo 3 false false]
      2 sampleNow).2 [sampleTodo 1 true true] [sampleTodo 3 false false]
      (sampleTodo 2 false true) rfl (by decide) rfl).2.1 rfl rfl,
   ((softDelete_guard_chain
      [sampleTodo 1 true true, sampleTodo 2 false true, sampleTodo 3 false false]
      3 sampleNow).2 [sampleTodo 1 true true, sampleTodo 2 false true] []
      (sampleTodo 3 false false) rfl (by decide) rfl).2.2 rfl rfl⟩

/-! ## The id given by `add` -/

theorem maxID_concat (init : List Todo) (l : Todo) :
    maxID (init ++ [l]) =
      some (match maxID init with
        | none => l.ID
        | some m => max m l.ID) := by
  cases init with
  | nil => simp [maxID]
  | cons t ts => simp [maxID, List.foldl_append]

theorem idsUpTo_length (n : Nat) : (idsUpTo n).length = n := by
  unfold idsUpTo
  rw [List.length_map, List.length_range]

theorem maxID_of_ids :
    ∀ (todos : List Todo), todos.map (fun t => t.ID) = idsUpTo todos.length →
      todos ≠ [] → maxID todos = some (todos.length : Int) := by
  intro todos
  induction todos using List.reverseRecOn with
  | nil => intro _ h; exact absurd rfl h
  | append_singleton init l ih =>
    intro hinv _
    simp only [List.map_append, List.map_cons, List.map_nil, List.length_append,
      List.length_singleton, idsUpTo_succ] at hinv
    have hlen : (List.map (fun t => t.ID) init).length = (idsUpTo init.length).length := by
      rw [List.length_map, idsUpTo_length]
    have hsplit := List.append_inj hinv hlen
    have hl : l.ID = (init.length : Int) + 1 := by simpa using hsplit.2
    rw [maxID_concat]
    rcases List.eq_nil_or_concat init with rfl | ⟨i2, l2, h2⟩
    · simp [maxID, hl]
    · have hne : init ≠ [] := by rw [h2]; simp
      rw [ih hsplit.1 hne]
      show some (max (init.length : Int) l.ID) = _
      rw [hl, max_eq_right (by omega)]
      simp

theorem nextID_of_getLast (todos : List Todo) (l : Todo) (h : todos.getLast? = some l) :
    nextID todos = wrapInt64 (l.ID + 1) := by
  simp [nextID, h]

/-- C6, as stated, fails: in a stored collection whose records have the ids 5
and 3, in this order, a successful add gives the new record the id 4, while
the maximum id among the existing records is 5. -/
theorem add_ignores_maximum_id :
    (add parseExample [sampleTodo 5 false false, sampleTodo 3 false false]
        "task" "2025/01/01 12:00:00" sampleNow sampleNow).written =
      some ([sampleTodo 5 false false, sampleTodo 3 false false] ++
        [{ ID := 4, Task := "task", Done := false,
           Limit := ⟨63871329600000000000, none⟩, CreatedAt := sampleNow,
           UpdatedAt := sampleNow, DeletedAt := Time.zero, IsDone := false,
           IsDeleted := false }]) ∧
    maxID [sampleTodo 5 false false, sampleTodo 3 false false] = some 5 ∧
    (4 : Int) ≠ 5 + 1 := by
  decide

/-- C6, amended: a successful add gives the new record the id 1 when the
collection is empty and otherwise the id of the last stored record plus one,
in 64-bit arithmetic.  This is the maximum id among the existing records plus
one whenever the last record holds that maximum and it is below the largest
64-bit integer, as it is in every collection built from the empty one by add,
complete and softDelete that leaves room for one more record. -/
theorem add_assigns_last_id_plus_one (parse : String → Option Time) (todos : List Todo)
    (task input : String) (nowC nowU limit : Time) (hp : parse input = some limit) :
    ∃ t, (add parse todos task input nowC nowU).written = some (todos ++ [t]) ∧
      (todos = [] → t.ID = 1) ∧
      (∀ l, todos.getLast? = some l → t.ID = wrapInt64 (l.ID + 1)) ∧
      (∀ l m, todos.getLast? = some l → maxID todos = some m → l.ID = m →
        -2 ^ 63 ≤ m → m < 2 ^ 63 - 1 → t.ID = m + 1) ∧
      (∀ ops m, todos = run parse ops → todos.length + 1 < 2 ^ 63 →
        maxID todos = some m → t.ID = m + 1) := by
  refine ⟨{ ID := nextID todos, Task := task, Done := false, Limit := limit,
            CreatedAt := nowC, UpdatedAt := nowU, DeletedAt := Time.zero,
            IsDone := false, IsDeleted := false }, by simp [add, hp], ?_, ?_, ?_, ?_⟩
  · rintro rfl; rfl
  · intro l hl
    exact nextID_of_getLast todos l hl
  · intro l m hl _ hlm hlo hhi
    show nextID todos = m + 1
    rw [nextID_of_getLast todos l hl, hlm]
    apply wrapInt64_of_range <;> omega
  · intro ops m hrun hfit hmax
    show nextID todos = m + 1
    have hinv : todos.map (fun t => t.ID) = idsUpTo todos.length := by
      rw [hrun]
      apply runFrom_ids parse ops [] rfl
      rw [hrun] at hfit
      have : (runFrom parse [] ops).length = (run parse ops).length := rfl
      omega
    have hne : todos ≠ [] := by
      rintro rfl
      simp [maxID] at hmax
    have hm : m = (todos.length : Int) := by
      rw [maxID_of_ids todos hinv hne] at hmax
      exact (Option.some.inj hmax).symm
    rw [nextID_of_ids todos hinv, hm]
    apply wrapInt64_of_range <;> omega

theorem add_assigns_last_id_plus_one_witness :
    parseExample "2025/01/01 12:00:00" = some ⟨63871329600000000000, none⟩ ∧
    ∃ t, (add parseExample (run parseExample sampleOps) "task D" "2025/01/01 12:00:00"
        sampleNow sampleNow).written = some (run parseExample sampleOps ++ [t]) ∧
      (run parseExample sampleOps).map (fun u => u.ID) = [1, 2, 3] ∧ t.ID = 3 + 1 := by
  refine ⟨by decide, ?_⟩
  obtain ⟨t, hw, _, _, _, hrun⟩ :=
    add_assigns_last_id_plus_one parseExample (run parseExample sampleOps) "task D"
      "2025/01/01 12:00:00" sampleNow sampleNow ⟨63871329600000000000, none⟩ (by decide)
  exact ⟨t, hw, by decide, hrun sampleOps 3 rfl (by decide) (by decide)⟩

/-- C7: for every collection and every operation, each record that is done
before the operation is done after it, and each record that is deleted before
the operation is deleted after it (the record stays at its position). -/
theorem flags_never_reset (parse : String → Option Time) (todos : List Todo) (op : Op)
    (i : Nat) (t : Todo) (hi : todos[i]? = some t) :
    ∃ u, (step parse todos op)[i]? = some u ∧
      (t.IsDone = true → u.IsDone = true) ∧ (t.IsDeleted = true → u.IsDeleted = true) :=
  step_rel
    (fun t u => (t.IsDone = true → u.IsDone = true) ∧ (t.IsDeleted = true → u.IsDeleted = true))
    (fun _ => ⟨id, id⟩) (fun _ _ => ⟨fun _ => rfl, id⟩) (fun _ _ _ _ => ⟨id, fun _ => rfl⟩)
    parse todos op i t hi

theorem flags_never_reset_witness :
    [sampleTodo 1 true false, sampleTodo 2 false true][1]? = some (sampleTodo 2 false true) ∧
    ∃ u, (step parseExample [sampleTodo 1 true false, sampleTodo 2 false true]
        (.complete 2))[1]? = some u ∧
      ((sampleTodo 2 false true).IsDone = true → u.IsDone = true) ∧
      ((sampleTodo 2 false true).IsDeleted = true → u.IsDeleted = true) :=
  ⟨rfl, flags_never_reset parseExample [sampleTodo 1 true false, sampleTodo 2 false true]
    (.complete 2) 1 (sampleTodo 2 false true) rfl⟩

/-- C8: for every collection and every operation, each record present before
the operation is present after it at the same position with the same id, task,
limit and createdAt; the number of records grows by exactly one on an add whose
deadline parses and is unchanged by every other operation. -/
theorem records_stay_in_place (parse : String → Option Time) (todos : List Todo) (op : Op) :
    (∀ (i : Nat) (t : Todo), todos[i]? = some t →
      ∃ u, (step parse todos op)[i]? = some u ∧ u.ID = t.ID ∧ u.Task = t.Task ∧
        u.Limit = t.Limit ∧ u.CreatedAt = t.CreatedAt) ∧
    (step parse todos op).length =
      todos.length + (if op.addsRecord parse = true then 1 else 0) :=
  ⟨fun i t hi => step_rel
      (fun t u => u.ID = t.ID ∧ u.Task = t.Task ∧ u.Limit = t.Limit ∧
        u.CreatedAt = t.CreatedAt)
      (fun _ => ⟨rfl, rfl, rfl, rfl⟩) (fun _ _ => ⟨rfl, rfl, rfl, rfl⟩)
      (fun _ _ _ _ => ⟨rfl, rfl, rfl, rfl⟩) parse todos op i t hi,
    step_length parse todos op⟩

theorem records_stay_in_place_witness :
    (∃ u, (step parseExample [sampleTodo 1 true false, sampleTodo 2 false false]
        (.softDelete 2 sampleNow))[1]? = some u ∧ u.ID = 2 ∧ u.Task = "buy milk" ∧
      u.Limit = (sampleTodo 2 false false).Limit ∧
      u.CreatedAt = (sampleTodo 2 false false).CreatedAt) ∧
    (step parseExample [sampleTodo 1 true false, sampleTodo 2 false false]
      (.softDelete 2 sampleNow)).length = 2 + 0 :=
  ⟨(records_stay_in_place parseExample [sampleTodo 1 true false, sampleTodo 2 false false]
      (.softDelete 2 sampleNow)).1 1 (sampleTodo 2 false false) rfl,
   (records_stay_in_place parseExample [sampleTodo 1 true false, sampleTodo 2 false false]
      (.softDelete 2 sampleNow)).2⟩

/-- C9, as stated, fails: `add` reads the clock once for createdAt and once
more for updatedAt, and when the two readings differ the new record has a
createdAt different from its updatedAt. -/
theorem add_reads_clock_twice :
    ∃ t, (add parseExample [] "buy milk" "2025/01/01 12:00:00"
        ⟨63870000000000000000, some 100⟩ ⟨63870000000000000150, some 250⟩).written =
        some ([] ++ [t]) ∧
      t.CreatedAt ≠ t.UpdatedAt :=
  ⟨{ ID := 1, Task := "buy milk", Done := false, Limit := ⟨63871329600000000000, none⟩,
     CreatedAt := ⟨63870000000000000000, some 100⟩,
     UpdatedAt := ⟨63870000000000000150, some 250⟩, DeletedAt := Time.zero,
     IsDone := false, IsDeleted := false }, by decide, by decide⟩

/-- C9, amended: for every collection, task description and deadline input
that parses, add reports success and saves the old collection with exactly one
record appended at the end, whose task is the given description, whose limit is
the parsed deadline, whose isDone and isDeleted are false, whose deletedAt is
the zero time, whose createdAt is the first and whose updatedAt is the second
of the two clock readings taken while the record is built; the two are equal
when the two readings are. -/
theorem add_appends_record (parse : String → Option Time) (todos : List Todo)
    (task input : String) (nowC nowU limit : Time) (hp : parse input = some limit) :
    ∃ t, add parse todos task input nowC nowU = ⟨.added task, some (todos ++ [t])⟩ ∧
      step parse todos (.add task input nowC nowU) = todos ++ [t] ∧
      t.Task = task ∧ t.Limit = limit ∧ t.IsDone = false ∧ t.IsDeleted = false ∧
      t.DeletedAt = Time.zero ∧ t.CreatedAt = nowC ∧ t.UpdatedAt = nowU ∧
      (nowC = nowU → t.CreatedAt = t.UpdatedAt) :=
  ⟨{ ID := nextID todos, Task := task, Done := false, Limit := limit,
     CreatedAt := nowC, UpdatedAt := nowU, DeletedAt := Time.zero,
     IsDone := false, IsDeleted := false },
    by simp [add, hp], by simp [step, Op.apply, add, hp], rfl, rfl, rfl, rfl, rfl, rfl, rfl,
    fun h => h⟩

theorem add_appends_record_witness :
    parseExample "2025/01/01 12:00:00" = some ⟨63871329600000000000, none⟩ ∧
    ∃ t, add parseExample [sampleTodo 1 true false] "task B" "2025/01/01 12:00:00"
          sampleNow sampleNow = ⟨.added "task B", some ([sampleTodo 1 true false] ++ [t])⟩ ∧
      step parseExample [sampleTodo 1 true false]
          (.add "task B" "2025/01/01 12:00:00" sampleNow sampleNow) =
        [sampleTodo 1 true false] ++ [t] ∧
      t.Task = "task B" ∧ t.Limit = ⟨63871329600000000000, none⟩ ∧ t.IsDone = false ∧
      t.IsDeleted = false ∧ t.DeletedAt = Time.zero ∧ t.CreatedAt = sampleNow ∧
      t.UpdatedAt = sampleNow ∧ (sampleNow = sampleNow → t.CreatedAt = t.UpdatedAt) :=
  ⟨by decide, add_appends_record parseExample [sampleTodo 1 true false] "task B"
    "2025/01/01 12:00:00" sampleNow sampleNow ⟨63871329600000000000, none⟩ (by decide)⟩

/-- C10: for every task description and every deadline input that does not
parse, add reports a validation error and saves nothing, so the stored
collection is as it was and no record is appended. -/
theorem add_rejects_bad_deadline (parse : String → Option Time) (todos : List Todo)
    (task input : String) (nowC nowU : Time) (hp : parse input = none) :
    add parse todos task input nowC nowU = ⟨.validationError, none⟩ ∧
      step parse todos (.add task input nowC nowU) = todos := by
  have h : add parse todos task input nowC nowU = ⟨.validationError, none⟩ := by
    simp [add, hp]
  exact ⟨h, by simp [step, Op.apply, h]⟩

theorem add_rejects_bad_deadline_witness :
    parseExample "tomorrow" = none ∧
    (add parseExample [sampleTodo 1 false false] "task B" "tomorrow" sampleNow sampleNow =
        ⟨.validationError, none⟩ ∧
      step parseExample [sampleTodo 1 false false]
        (.add "task B" "tomorrow" sampleNow sampleNow) = [sampleTodo 1 false false]) :=
  ⟨by decide, add_rejects_bad_deadline parseExample [sampleTodo 1 false false] "task B"
    "tomorrow" sampleNow sampleNow (by decide)⟩

/-! ## Errors of the store -/

theorem doneLoop_written_success (id : Int) (todos : List Todo) :
    ∀ (rest : List Todo) (i : Nat) (w : List Todo),
      (doneLoop id todos i rest).written = some w →
      (doneLoop id todos i rest).msg.isSuccess = true := by
  intro rest
  induction rest with
  | nil => intro i w h; simp [doneLoop] at h
  | cons t tl ih =>
    intro i w h
    by_cases h1 : t.ID = id ∧ t.IsDone = false
    · simp [doneLoop, h1, Msg.isSuccess]
    · by_cases h2 : t.ID = id
      · have e : doneLoop id todos i (t :: tl) = ⟨.alreadyDone, none⟩ := by
          unfold doneLoop
          rw [if_neg h1, if_pos h2]
        rw [e] at h
        cases h
      · have e : doneLoop id todos i (t :: tl) = doneLoop id todos (i + 1) tl := by
          conv_lhs => unfold doneLoop
          rw [if_neg h1, if_neg h2]
        rw [e] at h ⊢
        exact ih (i + 1) w h

theorem deleteLoop_written_success (id : Int) (now : Time) (todos : List Todo) :
    ∀ (rest : List Todo) (i : Nat) (w : List Todo),
      (deleteLoop id now todos i rest).written = some w →
      (deleteLoop id now todos i rest).msg.isSuccess = true := by
  intro rest
  induction rest with
  | nil => intro i w h; simp [deleteLoop] at h
  | cons t tl ih =>
    intro i w h
    by_cases h1 : t.ID = id ∧ t.IsDone = true
    · have e : deleteLoop id now todos i (t :: tl) = ⟨.cannotDeleteCompleted, none⟩ := by
        unfold deleteLoop
        rw [if_pos h1]
      rw [e] at h
      cases h
    · by_cases h2 : t.ID = id ∧ t.IsDeleted = true
      · have e : deleteLoop id now todos i (t :: tl) = ⟨.alreadyDeleted, none⟩ := by
          unfold deleteLoop
          rw [if_neg h1, if_pos h2]
        rw [e] at h
        cases h
      · by_cases h3 : t.ID = id
        · have e : deleteLoop id now todos i (t :: tl) =
              ⟨.deleted t.Task,
                some (todos.set i { t with IsDeleted := true, DeletedAt := now })⟩ := by
            unfold deleteLoop
            rw [if_neg h1, if_neg h2, if_pos h3]
          rw [e]
          rfl
        · have e : deleteLoop id now todos i (t :: tl) =
              deleteLoop id now todos (i + 1) tl := by
            conv_lhs => unfold deleteLoop
            rw [if_neg h1, if_neg h2, if_neg h3]
          rw [e] at h ⊢
          exact ih (i + 1) w h

theorem apply_written_success (parse : String → Option Time) (todos : List Todo) (op : Op)
    (w : List Todo) (h : (op.apply parse todos).written = some w) :
    (op.apply parse todos).msg.isSuccess = true := by
  cases op with
  | add task input nowC nowU =>
    simp only [Op.apply, add] at h ⊢
    cases hp : parse input with
    | none => simp [hp] at h
    | some limit => simp [hp, Msg.isSuccess]
  | complete id => exact doneLoop_written_success id todos todos 0 w h
  | softDelete id now => exact deleteLoop_written_success id now todos todos 0 w h

theorem saveTodos_failed {Doc : Type} (lib : Lib Doc) (d : Disk Doc) (todos : List Todo)
    (h : (saveTodos lib d todos).2 = true) :
    (saveTodos lib d todos).1 = d ∨
      ∃ left, (saveTodos lib d todos).1 = { d with file := .data left } := by
  unfold saveTodos at h ⊢
  cases hm : lib.marshalIndent todos with
  | none => exact Or.inl rfl
  | some doc =>
    cases hw : d.writable with
    | false =>
      cases hf : lib.failedWrite doc with
      | none => left; simp [hf]
      | some left => right; exact ⟨left, by simp [hf]⟩
    | true => simp [hm, hw] at h

theorem perform_msg {Doc : Type} (lib : Lib Doc) (d : Disk Doc) (op : Op) :
    (perform lib d op).msg = (op.apply lib.parse (loadTodos lib d).1).msg := by
  cases h : (op.apply lib.parse (loadTodos lib d).1).written <;> simp [perform, h]

theorem perform_of_written {Doc : Type} (lib : Lib Doc) (d : Disk Doc) (op : Op)
    (w : List Todo) (h : (op.apply lib.parse (loadTodos lib d).1).written = some w) :
    (perform lib d op).disk = (saveTodos lib d w).1 := by
  unfold perform
  simp [h]

theorem perform_of_not_written {Doc : Type} (lib : Lib Doc) (d : Disk Doc) (op : Op)
    (h : (op.apply lib.parse (loadTodos lib d).1).written = none) :
    (perform lib d op).disk = d := by
  unfold perform
  simp [h]

/-- C11, as stated, fails: on a document that `json.Unmarshal` rejects, `add`
reports success and replaces the document by one that holds only the new
record, and `done` reports that the id is not found. -/
theorem malformed_document_is_overwritten :
    (loadTodos exampleLib ⟨.data none, true⟩).2 = true ∧
    (perform exampleLib ⟨.data none, true⟩
        (.add "task A" "2025/01/01 12:00:00" sampleNow sampleNow)).msg = .added "task A" ∧
    (perform exampleLib ⟨.data none, true⟩
        (.add "task A" "2025/01/01 12:00:00" sampleNow sampleNow)).disk.file =
      .data (some [{ ID := 1, Task := "task A", Done := false,
                     Limit := ⟨63871329600000000000, none⟩,
                     CreatedAt := sampleNow.stored, UpdatedAt := sampleNow.stored,
                     DeletedAt := Time.zero, IsDone := false, IsDeleted := false }]) ∧
    (perform exampleLib ⟨.data none, true⟩ (.complete 1)).msg = .notFound := by
  decide

/-- C11, amended: a lifecycle operation drops the error of the load and runs
on the collection returned with it, printing what it prints on that
collection.  When that collection is empty (the document is unreadable, or is
not JSON), complete and softDelete report NotFoundError and leave the document
as it was, and add with a deadline that parses reports success and, the write
succeeding, replaces the document by the encoding of the collection that holds
only the new record, with id 1. -/
theorem load_error_is_dropped {Doc : Type} (lib : Lib Doc) (d : Disk Doc) :
    (∀ op, (perform lib d op).msg = (op.apply lib.parse (loadTodos lib d).1).msg) ∧
    (loadTodos lib d = ([], true) →
      (∀ id, (perform lib d (.complete id)).msg = .notFound ∧
        (perform lib d (.complete id)).disk = d) ∧
      (∀ id now, (perform lib d (.softDelete id now)).msg = .notFound ∧
        (perform lib d (.softDelete id now)).disk = d) ∧
      (∀ task input nowC nowU limit doc, lib.parse input = some limit →
        d.writable = true →
        lib.marshalIndent
          [{ ID := 1, Task := task, Done := false, Limit := limit, CreatedAt := nowC,
             UpdatedAt := nowU, DeletedAt := Time.zero, IsDone := false,
             IsDeleted := false }] = some doc →
        (perform lib d (.add task input nowC nowU)).msg = .added task ∧
          (perform lib d (.add task input nowC nowU)).disk = { d with file := .data doc })) := by
  refine ⟨perform_msg lib d, ?_⟩
  intro hload
  refine ⟨?_, ?_, ?_⟩
  · intro id
    simp [perform, hload, Op.apply, done, doneLoop]
  · intro id now
    simp [perform, hload, Op.apply, deleteTodo, deleteLoop]
  · intro task input nowC nowU limit doc hp hw hm
    have hnext : nextID [] = 1 := rfl
    simp [perform, hload, Op.apply, add, hp, hnext, saveTodos, hm, hw]

theorem load_error_is_dropped_witness :
    loadTodos exampleLib ⟨.unreadable, true⟩ = ([], true) ∧
    ((perform exampleLib ⟨.unreadable, true⟩ (.complete 1)).msg = .notFound ∧
      (perform exampleLib ⟨.unreadable, true⟩ (.complete 1)).disk = ⟨.unreadable, true⟩) ∧
    ((perform exampleLib ⟨.unreadable, true⟩
        (.add "task A" "2025/01/01 12:00:00" sampleNow sampleNow)).msg = .added "task A" ∧
      (perform exampleLib ⟨.unreadable, true⟩
        (.add "task A" "2025/01/01 12:00:00" sampleNow sampleNow)).disk =
        { (⟨.unreadable, true⟩ : Disk (Option (List Todo))) with
          file := .data (some [{ ID := 1, Task := "task A", Done := false,
                                 Limit := ⟨63871329600000000000, none⟩,
                                 CreatedAt := sampleNow.stored, UpdatedAt := sampleNow.stored,
                                 DeletedAt := Time.zero, IsDone := false,
                                 IsDeleted := false }]) }) :=
  ⟨rfl,
   ((load_error_is_dropped exampleLib ⟨.unreadable, true⟩).2 rfl).1 1,
   ((load_error_is_dropped exampleLib ⟨.unreadable, true⟩).2 rfl).2.2 "task A"
      "2025/01/01 12:00:00" sampleNow sampleNow ⟨63871329600000000000, none⟩ _
      (by decide) rfl rfl⟩

/-- C12, as stated, fails: when the file cannot be written, `saveTodos`
returns an error and `add` still prints its success message. -/
theorem failed_save_reports_success :
    (saveTodos exampleLib ⟨.absent, false⟩
        [{ ID := 1, Task := "task A", Done := false, Limit := ⟨63871329600000000000, none⟩,
           CreatedAt := sampleNow, UpdatedAt := sampleNow, DeletedAt := Time.zero,
           IsDone := false, IsDeleted := false }]).2 = true ∧
    (add exampleLib.parse (loadTodos exampleLib ⟨.absent, false⟩).1 "task A"
        "2025/01/01 12:00:00" sampleNow sampleNow).written =
      some [{ ID := 1, Task := "task A", Done := false,
              Limit := ⟨63871329600000000000, none⟩,
              CreatedAt := sampleNow, UpdatedAt := sampleNow, DeletedAt := Time.zero,
              IsDone := false, IsDeleted := false }] ∧
    (perform exampleLib ⟨.absent, false⟩
        (.add "task A" "2025/01/01 12:00:00" sampleNow sampleNow)).msg = .added "task A" := by
  decide

/-- C12, amended: a lifecycle operation that reaches its write step drops the
result of the save: when saving fails it prints the same success message as
when saving succeeds, and nothing tells the user that persistence failed.  The
disk is then as the failed save left it: as it was when the collection could
not be encoded or the file could not be opened, and otherwise with the file
truncated and holding what the write left. -/
theorem save_error_is_dropped {Doc : Type} (lib : Lib Doc) (d : Disk Doc) (op : Op)
    (w : List Todo) (hw : (op.apply lib.parse (loadTodos lib d).1).written = some w)
    (hfail : (saveTodos lib d w).2 = true) :
    (perform lib d op).msg.isSuccess = true ∧
      (perform lib d op).msg = (op.apply lib.parse (loadTodos lib d).1).msg ∧
      (perform lib d op).disk = (saveTodos lib d w).1 ∧
      ((perform lib d op).disk = d ∨
        ∃ left, (perform lib d op).disk = { d with file := .data left }) := by
  refine ⟨?_, perform_msg lib d op, perform_of_written lib d op w hw, ?_⟩
  · rw [perform_msg]
    exact apply_written_success lib.parse _ op w hw
  · rw [perform_of_written lib d op w hw]
    exact saveTodos_failed lib d w hfail

theorem save_error_is_dropped_witness :
    ((perform exampleLib ⟨.data (some [sampleTodo 1 false false]), false⟩
        (.complete 1)).msg.isSuccess = true ∧
      (perform exampleLib ⟨.data (some [sampleTodo 1 false false]), false⟩
        (.complete 1)).msg =
        (Op.apply exampleLib.parse
          (loadTodos exampleLib ⟨.data (some [sampleTodo 1 false false]), false⟩).1
          (.complete 1)).msg ∧
      (perform exampleLib ⟨.data (some [sampleTodo 1 false false]), false⟩
        (.complete 1)).disk =
        (saveTodos exampleLib ⟨.data (some [sampleTodo 1 false false]), false⟩
          [sampleTodo 1 true false]).1 ∧
      ((perform exampleLib ⟨.data (some [sampleTodo 1 false false]), false⟩
          (.complete 1)).disk = ⟨.data (some [sampleTodo 1 false false]), false⟩ ∨
        ∃ left, (perform exampleLib ⟨.data (some [sampleTodo 1 false false]), false⟩
          (.complete 1)).disk =
          { (⟨.data (some [sampleTodo 1 false false]), false⟩ :
              Disk (Option (List Todo))) with file := .data left })) ∧
    (perform exampleLib ⟨.data (some [sampleTodo 1 false false]), false⟩
        (.complete 1)).msg = .completed "buy milk" ∧
    (perform exampleLib ⟨.data (some [sampleTodo 1 false false]), false⟩
        (.complete 1)).disk = ⟨.data none, false⟩ :=
  ⟨save_error_is_dropped exampleLib ⟨.data (some [sampleTodo 1 false false]), false⟩
    (.complete 1) [sampleTodo 1 true false] (by decide) (by decide), by decide, by decide⟩

/-- C13: when softDelete(id) succeeds on a collection, a second softDelete(id)
on the collection it saved reports AlreadyDeletedError and saves nothing, so
that collection, with the deletedAt set by the first call, stays as it is. -/
theorem second_softDelete_is_rejected (parse : String → Option Time) (todos w : List Todo)
    (id : Int) (now now2 : Time) (h : (deleteTodo todos id now).written = some w) :
    deleteTodo w id now2 = ⟨.alreadyDeleted, none⟩ ∧
      step parse w (.softDelete id now2) = w := by
  have key : deleteTodo w id now2 = ⟨.alreadyDeleted, none⟩ := by
    rcases split_first id todos with hno | ⟨a, r, b, hs, ha, hr⟩
    · have e : deleteTodo todos id now = ⟨.notFound, none⟩ :=
        deleteLoop_none id now todos todos 0 hno
      rw [e] at h
      cases h
    · rw [hs, deleteTodo_eq_of_split id now a b r ha hr] at h
      by_cases hd : r.IsDone = true
      · rw [if_pos hd] at h
        cases h
      · by_cases he : r.IsDeleted = true
        · rw [if_neg hd, if_pos he] at h
          cases h
        · rw [if_neg hd, if_neg he] at h
          have hw : w = a ++ { r with IsDeleted := true, DeletedAt := now } :: b :=
            (Option.some.inj h).symm
          have e := deleteTodo_eq_of_split id now2 a b
            { r with IsDeleted := true, DeletedAt := now } ha hr
          rw [hw, e]
          simp [hd]
  exact ⟨key, by simp [step, Op.apply, key]⟩

theorem second_softDelete_is_rejected_witness :
    (deleteTodo [sampleTodo 1 true false, sampleTodo 2 false false] 2 sampleNow).written =
        some [sampleTodo 1 true false,
          { sampleTodo 2 false true with DeletedAt := sampleNow }] ∧
    (deleteTodo [sampleTodo 1 true false,
          { sampleTodo 2 false true with DeletedAt := sampleNow }] 2 Time.zero =
        ⟨.alreadyDeleted, none⟩ ∧
      step parseExample [sampleTodo 1 true false,
          { sampleTodo 2 false true with DeletedAt := sampleNow }]
        (.softDelete 2 Time.zero) =
        [sampleTodo 1 true false, { sampleTodo 2 false true with DeletedAt := sampleNow }]) :=
  ⟨by decide,
   second_softDelete_is_rejected parseExample
     [sampleTodo 1 true false, sampleTodo 2 false false]
     [sampleTodo 1 true false, { sampleTodo 2 false true with DeletedAt := sampleNow }]
     2 sampleNow Time.zero (by decide)⟩

/-! ## The round trip through the document -/

theorem getElem?_map_stored (todos : List Todo) (i : Nat) (t : Todo)
    (h : todos[i]? = some t) : (todos.map Todo.stored)[i]? = some t.stored := by
  simp [List.getElem?_map, h]

theorem storeMember_id (acc : Todo × Bool) (n : Int) :
    storeMember acc ("id", .number n) =
      if -2 ^ 63 ≤ n ∧ n < 2 ^ 63 then ({ acc.1 with ID := n }, acc.2) else (acc.1, true) :=
  rfl

theorem storeMember_task (acc : Todo × Bool) (s : String) :
    storeMember acc ("task", .string s) = ({ acc.1 with Task := s }, acc.2) :=
  rfl

theorem storeMember_done (acc : Todo × Bool) (b : Bool) :
    storeMember acc ("done", .bool b) = ({ acc.1 with Done := b }, acc.2) :=
  rfl

theorem storeMember_limit (acc : Todo × Bool) (w : Int) :
    storeMember acc ("limit", .time w) = ({ acc.1 with Limit := ⟨w, none⟩ }, acc.2) :=
  rfl

theorem storeMember_created_at (acc : Todo × Bool) (w : Int) :
    storeMember acc ("created_at", .time w) = ({ acc.1 with CreatedAt := ⟨w, none⟩ }, acc.2) :=
  rfl

theorem storeMember_updated_at (acc : Todo × Bool) (w : Int) :
    storeMember acc ("updated_at", .time w) = ({ acc.1 with UpdatedAt := ⟨w, none⟩ }, acc.2) :=
  rfl

theorem storeMember_deleted_at (acc : Todo × Bool) (w : Int) :
    storeMember acc ("deleted_at", .time w) = ({ acc.1 with DeletedAt := ⟨w, none⟩ }, acc.2) :=
  rfl

theorem storeMember_is_done (acc : Todo × Bool) (b : Bool) :
    storeMember acc ("is_done", .bool b) = ({ acc.1 with IsDone := b }, acc.2) :=
  rfl

theorem storeMember_is_deleted (acc : Todo × Bool) (b : Bool) :
    storeMember acc ("is_deleted", .bool b) = ({ acc.1 with IsDeleted := b }, acc.2) :=
  rfl

theorem encodeTime_eq (t : Time) (v : JValue) (h : encodeTime t = some v) :
    v = .time t.wall := by
  unfold encodeTime at h
  split at h
  · exact (Option.some.inj h).symm
  · cases h

theorem encodeTodo_eq (t : Todo) (o : JObject) (ho : encodeTodo t = some o) :
    o = [("id", .number t.ID), ("task", .string t.Task), ("done", .bool t.Done),
      ("limit", .time t.Limit.wall), ("created_at", .time t.CreatedAt.wall),
      ("updated_at", .time t.UpdatedAt.wall), ("deleted_at", .time t.DeletedAt.wall),
      ("is_done", .bool t.IsDone), ("is_deleted", .bool t.IsDeleted)] := by
  unfold encodeTodo at ho
  cases h1 : encodeTime t.Limit with
  | none => simp [h1] at ho
  | some v1 =>
    cases h2 : encodeTime t.CreatedAt with
    | none => simp [h1, h2] at ho
    | some v2 =>
      cases h3 : encodeTime t.UpdatedAt with
      | none => simp [h1, h2, h3] at ho
      | some v3 =>
        cases h4 : encodeTime t.DeletedAt with
        | none => simp [h1, h2, h3, h4] at ho
        | some v4 =>
          simp only [h1, h2, h3, h4, Option.some.injEq] at ho
          rw [← ho, encodeTime_eq _ _ h1, encodeTime_eq _ _ h2, encodeTime_eq _ _ h3,
            encodeTime_eq _ _ h4]

theorem decodeTodo_encodeTodo (t : Todo) (o : JObject)
    (hid : -2 ^ 63 ≤ t.ID ∧ t.ID < 2 ^ 63) (ho : encodeTodo t = some o) :
    decodeTodo o = (t.stored, false) := by
  rw [encodeTodo_eq t o ho]
  simp only [decodeTodo, List.foldl, storeMember_id, storeMember_task, storeMember_done,
    storeMember_limit, storeMember_created_at, storeMember_updated_at,
    storeMember_deleted_at, storeMember_is_done, storeMember_is_deleted, if_pos hid]
  rfl

theorem unmarshal_marshal :
    ∀ (todos : List Todo) (os : List JObject),
      (∀ t ∈ todos, -2 ^ 63 ≤ t.ID ∧ t.ID < 2 ^ 63) → encodeAll todos = some os →
      unmarshalTodos (.array os) = (todos.map Todo.stored, false) := by
  intro todos
  induction todos with
  | nil =>
    intro os _ h
    simp only [encodeAll] at h
    cases h
    simp [unmarshalTodos]
  | cons t ts ih =>
    intro os hid h
    simp only [encodeAll] at h
    cases ho : encodeTodo t with
    | none => simp [ho] at h
    | some o =>
      cases hos : encodeAll ts with
      | none => simp [ho, hos] at h
      | some os2 =>
        simp only [ho, hos, Option.some.injEq] at h
        subst h
        have h1 := decodeTodo_encodeTodo t o (hid t (List.mem_cons_self _ _)) ho
        have h2 := ih os2 (fun x hx => hid x (List.mem_cons_of_mem _ hx)) hos
        simp only [unmarshalTodos, Prod.mk.injEq] at h2 ⊢
        simp [h1, h2.1, h2.2]

theorem encodeTodo_isSome (t : Todo)
    (h : t.Limit.yearInRange = true ∧ t.CreatedAt.yearInRange = true ∧
      t.UpdatedAt.yearInRange = true ∧ t.DeletedAt.yearInRange = true) :
    ∃ o, encodeTodo t = some o := by
  simp [encodeTodo, encodeTime, h.1, h.2.1, h.2.2.1, h.2.2.2]

theorem encodeAll_isSome :
    ∀ (todos : List Todo),
      (∀ t ∈ todos, t.Limit.yearInRange = true ∧ t.CreatedAt.yearInRange = true ∧
        t.UpdatedAt.yearInRange = true ∧ t.DeletedAt.yearInRange = true) →
      ∃ os, encodeAll todos = some os := by
  intro todos
  induction todos with
  | nil => intro _; exact ⟨[], rfl⟩
  | cons t ts ih =>
    intro h
    obtain ⟨o, ho⟩ := encodeTodo_isSome t (h t (List.mem_cons_self _ _))
    obtain ⟨os, hos⟩ := ih (fun x hx => h x (List.mem_cons_of_mem _ hx))
    exact ⟨o :: os, by simp [encodeAll, ho, hos]⟩

/-- C14, as stated, fails: a record whose createdAt and updatedAt come from
`time.Now` carries their monotonic clock readings, the document does not, and
the collection loaded after the save is not equal to the collection saved. -/
theorem roundtrip_drops_monotonic_reading :
    (saveTodos jsonLib ⟨.absent, true⟩ [sampleTodo 1 false false]).2 = false ∧
    (loadTodos jsonLib
        (saveTodos jsonLib ⟨.absent, true⟩ [sampleTodo 1 false false]).1).2 = false ∧
    (loadTodos jsonLib
        (saveTodos jsonLib ⟨.absent, true⟩ [sampleTodo 1 false false]).1).1 ≠
      [sampleTodo 1 false false] ∧
    (loadTodos jsonLib
        (saveTodos jsonLib ⟨.absent, true⟩ [sampleTodo 1 false false]).1).1.map
        (fun t => t.CreatedAt) ≠ [(sampleTodo 1 false false).CreatedAt] := by
  decide

/-- C14, amended: with the document being the JSON array that holds, for each
record, a member for each field under the key of its struct tag, for every
collection whose ids are 64-bit integers and whose timestamps have years in
0..9999, and a write that succeeds, save followed by load succeeds and returns
a collection of the same length and order in which every record has the same
id, task and done flags and the same limit, createdAt, updatedAt and deletedAt
as instants; the monotonic clock reading of a timestamp is not kept, and a
timestamp without one comes back identical. -/
theorem save_then_load (lib : Lib JDoc) (d : Disk JDoc) (todos : List Todo)
    (hm : lib.marshalIndent = marshalTodos) (hu : lib.unmarshal = unmarshalTodos)
    (hw : d.writable = true)
    (hids : ∀ t ∈ todos, -2 ^ 63 ≤ t.ID ∧ t.ID < 2 ^ 63)
    (hyears : ∀ t ∈ todos, t.Limit.yearInRange = true ∧ t.CreatedAt.yearInRange = true ∧
      t.UpdatedAt.yearInRange = true ∧ t.DeletedAt.yearInRange = true) :
    (saveTodos lib d todos).2 = false ∧
    (∃ loaded, loadTodos lib (saveTodos lib d todos).1 = (loaded, false) ∧
      loaded.length = todos.length ∧
      ∀ (i : Nat) (t : Todo), todos[i]? = some t →
        ∃ u, loaded[i]? = some u ∧ u.ID = t.ID ∧ u.Task = t.Task ∧ u.Done = t.Done ∧
          u.IsDone = t.IsDone ∧ u.IsDeleted = t.IsDeleted ∧
          u.Limit.wall = t.Limit.wall ∧ u.CreatedAt.wall = t.CreatedAt.wall ∧
          u.UpdatedAt.wall = t.UpdatedAt.wall ∧ u.DeletedAt.wall = t.DeletedAt.wall ∧
          u.Limit.mono = none ∧ u.CreatedAt.mono = none ∧ u.UpdatedAt.mono = none ∧
          u.DeletedAt.mono = none ∧
          (t.Limit.mono = none → t.CreatedAt.mono = none → t.UpdatedAt.mono = none →
            t.DeletedAt.mono = none → u = t)) := by
  obtain ⟨os, hos⟩ := encodeAll_isSome todos hyears
  have hdec := unmarshal_marshal todos os hids hos
  have hsave : saveTodos lib d todos = ({ d with file := .data (.array os) }, false) := by
    simp [saveTodos, hm, marshalTodos, hos, hw]
  refine ⟨by rw [hsave], todos.map Todo.stored, ?_, by simp, ?_⟩
  · rw [hsave]
    simp [loadTodos, hu, hdec]
  · intro i t hi
    refine ⟨t.stored, getElem?_map_stored todos i t hi, rfl, rfl, rfl, rfl, rfl, rfl, rfl,
      rfl, rfl, rfl, rfl, rfl, rfl, ?_⟩
    intro h1 h2 h3 h4
    obtain ⟨_, _, _, ⟨lw, lm⟩, ⟨cw, cm⟩, ⟨uw, um⟩, ⟨dw, dm⟩, _, _⟩ := t
    simp only at h1 h2 h3 h4
    subst h1 h2 h3 h4
    rfl

theorem save_then_load_witness :
    (∀ t ∈ [sampleTodo 1 false false, sampleTodo 2 true false],
      -2 ^ 63 ≤ t.ID ∧ t.ID < 2 ^ 63) ∧
    (∀ t ∈ [sampleTodo 1 false false, sampleTodo 2 true false],
      t.Limit.yearInRange = true ∧ t.CreatedAt.yearInRange = true ∧
      t.UpdatedAt.yearInRange = true ∧ t.DeletedAt.yearInRange = true) ∧
    ((saveTodos jsonLib ⟨.absent, true⟩
        [sampleTodo 1 false false, sampleTodo 2 true false]).2 = false ∧
    (∃ loaded, loadTodos jsonLib (saveTodos jsonLib ⟨.absent, true⟩
          [sampleTodo 1 false false, sampleTodo 2 true false]).1 = (loaded, false) ∧
      loaded.length = [sampleTodo 1 false false, sampleTodo 2 true false].length ∧
      ∀ (i : Nat) (t : Todo),
        [sampleTodo 1 false false, sampleTodo 2 true false][i]? = some t →
        ∃ u, loaded[i]? = some u ∧ u.ID = t.ID ∧ u.Task = t.Task ∧ u.Done = t.Done ∧
          u.IsDone = t.IsDone ∧ u.IsDeleted = t.IsDeleted ∧
          u.Limit.wall = t.Limit.wall ∧ u.CreatedAt.wall = t.CreatedAt.wall ∧
          u.UpdatedAt.wall = t.UpdatedAt.wall ∧ u.DeletedAt.wall = t.DeletedAt.wall ∧
          u.Limit.mono = none ∧ u.CreatedAt.mono = none ∧ u.UpdatedAt.mono = none ∧
          u.DeletedAt.mono = none ∧
          (t.Limit.mono = none → t.CreatedAt.mono = none → t.UpdatedAt.mono = none →
            t.DeletedAt.mono = none → u = t))) :=
  ⟨by decide, by decide,
   save_then_load jsonLib ⟨.absent, true⟩ [sampleTodo 1 false false, sampleTodo 2 true false]
     rfl rfl rfl (by decide) (by decide)⟩

/-! ## The two completion fields -/

theorem step_done_fields (parse : String → Option Time) (todos : List Todo) (op : Op)
    (hinv : ∀ t ∈ todos, t.Done = t.IsDone) :
    ∀ t ∈ step parse todos op, t.Done = t.IsDone := by
  rcases step_cases parse todos op with h | ⟨_, _, _, _, _, rfl, hp, h⟩ |
      ⟨id, a, r, b, rfl, hs, ha, hr, hd, h⟩ | ⟨_, now, a, r, b, rfl, hs, _, _, hd, _, h⟩
  · rw [h]; exact hinv
  · rw [h]
    intro t ht
    rcases List.mem_append.mp ht with ht | ht
    · exact hinv t ht
    · have : t = _ := List.mem_singleton.mp ht
      subst this
      rfl
  · rw [h]
    intro t ht
    rcases List.mem_append.mp ht with ht | ht
    · exact hinv t (by rw [hs]; exact List.mem_append_left _ ht)
    · rcases List.mem_cons.mp ht with rfl | ht
      · rfl
      · exact hinv t (by rw [hs]; exact List.mem_append_right _ (List.mem_cons_of_mem _ ht))
  · rw [h]
    intro t ht
    rcases List.mem_append.mp ht with ht | ht
    · exact hinv t (by rw [hs]; exact List.mem_append_left _ ht)
    · rcases List.mem_cons.mp ht with rfl | ht
      · exact hinv r (by rw [hs]; exact List.mem_append_right _ (List.mem_cons_self _ _))
      · exact hinv t (by rw [hs]; exact List.mem_append_right _ (List.mem_cons_of_mem _ ht))

theorem runFrom_done_fields (parse : String → Option Time) :
    ∀ (ops : List Op) (todos : List Todo), (∀ t ∈ todos, t.Done = t.IsDone) →
      ∀ t ∈ runFrom parse todos ops, t.Done = t.IsDone := by
  intro ops
  induction ops with
  | nil => intro todos hinv; simpa [runFrom] using hinv
  | cons op ops ih =>
    intro todos hinv
    rw [runFrom]
    exact ih _ (step_done_fields parse todos op hinv)

/-- C20: in every collection reached from the empty collection by add,
complete and softDelete, the two persisted completion fields of every record
agree: Done equals IsDone. -/
theorem done_fields_agree (parse : String → Option Time) (ops : List Op) :
    ∀ t ∈ run parse ops, t.Done = t.IsDone :=
  runFrom_done_fields parse ops [] (by simp)

theorem done_fields_agree_witness :
    ∃ t ∈ run parseExample sampleOps, t.ID = 2 ∧ t.IsDone = true ∧ t.Done = t.IsDone :=
  ⟨{ ID := 2, Task := "task B", Done := true, Limit := ⟨63871329600000000000, none⟩,
     CreatedAt := ⟨63870000001000000000, some 1000000100⟩,
     UpdatedAt := ⟨63870000001000000150, some 1000000250⟩,
     DeletedAt := Time.zero, IsDone := true, IsDeleted := false },
   by decide, rfl, rfl,
   done_fields_agree parseExample sampleOps
     { ID := 2, Task := "task B", Done := true, Limit := ⟨63871329600000000000, none⟩,
       CreatedAt := ⟨63870000001000000000, some 1000000100⟩,
       UpdatedAt := ⟨63870000001000000150, some 1000000250⟩,
       DeletedAt := Time.zero, IsDone := true, IsDeleted := false } (by decide)⟩

/-! ## Display widths -/

theorem displayWidth_padRight (n : Nat) (s : String) :
    displayWidth (padRight n s) = displayWidth s + (n - runeCount s) := by
  have hsp : charColumns ' ' = 1 := by decide
  simp [displayWidth, padRight, runeCount, List.map_append, List.sum_append,
    List.map_replicate, hsp]

theorem narrow_counts (l : List Char) (h : ∀ c ∈ l, c.utf8Size = 1) :
    (l.map Char.utf8Size).sum = l.length ∧ (l.map charColumns).sum = l.length := by
  induction l with
  | nil => simp
  | cons c cs ih =>
    have hc : c.utf8Size = 1 := h c (List.mem_cons_self _ _)
    have hcs := ih (fun x hx => h x (List.mem_cons_of_mem _ hx))
    simp only [List.map_cons, List.sum_cons, List.length_cons, charColumns, hc, hcs.1, hcs.2,
      if_true]
    omega

theorem wide_counts (l : List Char) (h : ∀ c ∈ l, c.utf8Size ≠ 1) :
    2 * l.length ≤ (l.map Char.utf8Size).sum ∧ (l.map charColumns).sum = 2 * l.length := by
  induction l with
  | nil => simp
  | cons c cs ih =>
    have hc : c.utf8Size ≠ 1 := h c (List.mem_cons_self _ _)
    have hpos : 0 < c.utf8Size := Char.utf8Size_pos c
    have hcs := ih (fun x hx => h x (List.mem_cons_of_mem _ hx))
    simp only [List.map_cons, List.sum_cons, List.length_cons, charColumns, hc, hcs.2,
      if_false]
    omega

theorem padField_narrow (total : Nat) (s : String) (h : ∀ c ∈ s.data, c.utf8Size = 1)
    (hlen : runeCount s ≤ total) : displayWidth (padField total s) = total := by
  have hn := narrow_counts s.data h
  have hb : byteLen s = runeCount s := hn.1
  have hw : displayWidth s = runeCount s := hn.2
  have hf : (fieldWidth total s).natAbs = total := by
    simp only [fieldWidth, hb, if_true]
    omega
  rw [padField, displayWidth_padRight, hf, hw]
  omega

theorem padField_wide (total : Nat) (s : String) (h : ∀ c ∈ s.data, c.utf8Size ≠ 1)
    (hlen : 2 * runeCount s ≤ total) : displayWidth (padField total s) = total := by
  have hn := wide_counts s.data h
  have hb : 2 * runeCount s ≤ byteLen s := hn.1
  have hw : displayWidth s = 2 * runeCount s := hn.2
  by_cases h0 : runeCount s = byteLen s
  · have hf : (fieldWidth total s).natAbs = total := by
      simp only [fieldWidth, h0, if_true]
      omega
    rw [padField, displayWidth_padRight, hf, hw]
    omega
  · have hf : (fieldWidth total s).natAbs = total - runeCount s := by
      simp only [fieldWidth, h0, if_false]
      omega
    rw [padField, displayWidth_padRight, hf, hw]
    omega

theorem statusLabel_width (t : Todo) : displayWidth (padField 12 (statusLabel t)) = 12 := by
  unfold statusLabel
  cases t.IsDone <;> cases t.IsDeleted <;> decide

/-- C18, on the code: a task that mixes narrow and wide characters is padded
as if all its characters were wide.  The task "buy 牛乳" (four narrow and two
wide characters, eight columns) is rendered in 20 display columns instead of
24, while the all-narrow "buy milk" and the all-wide "牛乳を買う" are rendered
in 24. -/
theorem format_misaligns_mixed_text :
    displayWidth (padField 24 "buy 牛乳") = 20 ∧
    displayWidth (padField 24 "buy milk") = 24 ∧
    displayWidth (padField 24 "牛乳を買う") = 24 ∧
    format (fun _ => "2025/01/01 12:00:00") 1 "未完了" "buy 牛乳" Time.zero =
      "1  未完了       buy 牛乳             2025/01/01 12:00:00\n" ∧
    format (fun _ => "2025/01/01 12:00:00") 1 "未完了" "buy milk" Time.zero =
      "1  未完了       buy milk                 2025/01/01 12:00:00\n" := by
  decide

/-- C19: when the status and the task are each either made only of one-byte
characters (at most 12 and 24 of them) or made only of wide characters (at
most 6 and 12 of them), format renders the status field in exactly 12 display
columns and the task field in exactly 24; this holds for each status label
list derives, and the status and task fields of the header row of list take
12 and 24 display columns too. -/
theorem format_aligns_pure_text (formatTime : Time → String) (id : Int)
    (status task : String) (limit : Time)
    (hs : ((∀ c ∈ status.data, c.utf8Size = 1) ∧ runeCount status ≤ 12) ∨
      ((∀ c ∈ status.data, c.utf8Size ≠ 1) ∧ runeCount status ≤ 6))
    (ht : ((∀ c ∈ task.data, c.utf8Size = 1) ∧ runeCount task ≤ 24) ∨
      ((∀ c ∈ task.data, c.utf8Size ≠ 1) ∧ runeCount task ≤ 12)) :
    format formatTime id status task limit =
        padRight 2 (toString id) ++ " " ++ padField 12 status ++ " " ++ padField 24 task ++
          " " ++ formatTime limit ++ "\n" ∧
      displayWidth (padField 12 status) = 12 ∧
      displayWidth (padField 24 task) = 24 ∧
      (∀ t : Todo, displayWidth (padField 12 (statusLabel t)) = 12) ∧
      displayWidth (padRight 7 "ステータス") = 12 ∧
      displayWidth (padRight 21 "タスク") = 24 := by
  refine ⟨rfl, ?_, ?_, statusLabel_width, by decide, by decide⟩
  · rcases hs with ⟨h, hlen⟩ | ⟨h, hlen⟩
    · exact padField_narrow 12 status h hlen
    · exact padField_wide 12 status h (by omega)
  · rcases ht with ⟨h, hlen⟩ | ⟨h, hlen⟩
    · exact padField_narrow 24 task h hlen
    · exact padField_wide 24 task h (by omega)

theorem format_aligns_pure_text_witness :
    (((∀ c ∈ "未完了".data, c.utf8Size = 1) ∧ runeCount "未完了" ≤ 12) ∨
      ((∀ c ∈ "未完了".data, c.utf8Size ≠ 1) ∧ runeCount "未完了" ≤ 6)) ∧
    (((∀ c ∈ "buy milk".data, c.utf8Size = 1) ∧ runeCount "buy milk" ≤ 24) ∨
      ((∀ c ∈ "buy milk".data, c.utf8Size ≠ 1) ∧ runeCount "buy milk" ≤ 12)) ∧
    (format exampleLib.formatTime 1 "未完了" "buy milk" Time.zero =
        padRight 2 (toString (1 : Int)) ++ " " ++ padField 12 "未完了" ++ " " ++
          padField 24 "buy milk" ++ " " ++ exampleLib.formatTime Time.zero ++ "\n" ∧
      displayWidth (padField 12 "未完了") = 12 ∧
      displayWidth (padField 24 "buy milk") = 24 ∧
      (∀ t : Todo, displayWidth (padField 12 (statusLabel t)) = 12) ∧
      displayWidth (padRight 7 "ステータス") = 12 ∧
      displayWidth (padRight 21 "タスク") = 24) :=
  ⟨by decide, by decide,
   format_aligns_pure_text exampleLib.formatTime 1 "未完了" "buy milk" Time.zero
     (by decide) (by decide)⟩

/-! ## The missing document -/

theorem perform_congr {Doc : Type} (lib : Lib Doc) (d d2 : Disk Doc) (op : Op)
    (hload : (loadTodos lib d).1 = (loadTodos lib d2).1) (hw : d.writable = d2.writable) :
    (perform lib d op).msg = (perform lib d2 op).msg ∧
      (perform lib d op).disk.writable = (perform lib d2 op).disk.writable ∧
      ((perform lib d op).disk.file = (perform lib d2 op).disk.file ∨
        ((perform lib d op).disk = d ∧ (perform lib d2 op).disk = d2)) := by
  refine ⟨by rw [perform_msg, perform_msg, hload], ?_⟩
  cases hwr : (op.apply lib.parse (loadTodos lib d).1).written with
  | none =>
    have hwr2 : (op.apply lib.parse (loadTodos lib d2).1).written = none := by
      rw [← hload]; exact hwr
    rw [perform_of_not_written lib d op hwr, perform_of_not_written lib d2 op hwr2]
    exact ⟨hw, Or.inr ⟨rfl, rfl⟩⟩
  | some w =>
    have hwr2 : (op.apply lib.parse (loadTodos lib d2).1).written = some w := by
      rw [← hload]; exact hwr
    rw [perform_of_written lib d op w hwr, perform_of_written lib d2 op w hwr2]
    unfold saveTodos
    cases lib.marshalIndent w with
    | none => exact ⟨hw, Or.inr ⟨rfl, rfl⟩⟩
    | some doc =>
      cases h1 : d.writable with
      | false =>
        have h2 : d2.writable = false := by rw [← hw]; exact h1
        cases hf : lib.failedWrite doc with
        | none => simp [h1, h2, hf]
        | some left => simp [h1, h2, hf]
      | true =>
        have h2 : d2.writable = true := by rw [← hw]; exact h1
        simp [h1, h2]

/-- C15: when no document exists, load returns the empty collection and no
error, and every operation does what it does on a document that holds the
empty collection: the same message and the same document saved; add gives the
id 1, complete and softDelete report NotFoundError for every id and write
nothing, and list prints the empty-state message. -/
theorem absent_document_is_empty {Doc : Type} (lib : Lib Doc) (w : Bool) :
    loadTodos lib ⟨.absent, w⟩ = ([], false) ∧
    (∀ doc op, lib.unmarshal doc = ([], false) →
      (perform lib ⟨.absent, w⟩ op).msg = (perform lib ⟨.data doc, w⟩ op).msg ∧
      (perform lib ⟨.absent, w⟩ op).disk.writable =
        (perform lib ⟨.data doc, w⟩ op).disk.writable ∧
      ((perform lib ⟨.absent, w⟩ op).disk.file = (perform lib ⟨.data doc, w⟩ op).disk.file ∨
        ((perform lib ⟨.absent, w⟩ op).disk = ⟨.absent, w⟩ ∧
          (perform lib ⟨.data doc, w⟩ op).disk = ⟨.data doc, w⟩)) ∧
      list lib ⟨.absent, w⟩ = list lib ⟨.data doc, w⟩) ∧
    (∀ task input nowC nowU limit, lib.parse input = some limit →
      add lib.parse (loadTodos lib ⟨.absent, w⟩).1 task input nowC nowU =
        ⟨.added task,
          some [{ ID := 1, Task := task, Done := false, Limit := limit, CreatedAt := nowC,
                  UpdatedAt := nowU, DeletedAt := Time.zero, IsDone := false,
                  IsDeleted := false }]⟩) ∧
    (∀ id, (perform lib ⟨.absent, w⟩ (.complete id)).msg = .notFound ∧
      (perform lib ⟨.absent, w⟩ (.complete id)).disk = ⟨.absent, w⟩) ∧
    (∀ id now, (perform lib ⟨.absent, w⟩ (.softDelete id now)).msg = .notFound ∧
      (perform lib ⟨.absent, w⟩ (.softDelete id now)).disk = ⟨.absent, w⟩) ∧
    list lib ⟨.absent, w⟩ = "📭 Todoはありません\n" := by
  refine ⟨rfl, ?_, ?_, ?_, ?_, ?_⟩
  · intro doc op hdoc
    have hload : (loadTodos lib ⟨.absent, w⟩).1 = (loadTodos lib ⟨.data doc, w⟩).1 := by
      simp [loadTodos, hdoc]
    obtain ⟨h1, h2, h3⟩ := perform_congr lib ⟨.absent, w⟩ ⟨.data doc, w⟩ op hload rfl
    refine ⟨h1, h2, h3, ?_⟩
    simp [list, loadTodos, hdoc]
  · intro task input nowC nowU limit hp
    have hnext : nextID [] = 1 := rfl
    simp [loadTodos, add, hp, hnext]
  · intro id
    simp [perform, loadTodos, Op.apply, done, doneLoop]
  · intro id now
    simp [perform, loadTodos, Op.apply, deleteTodo, deleteLoop]
  · simp [list, loadTodos]

theorem absent_document_is_empty_witness :
    exampleLib.unmarshal (some []) = ([], false) ∧
    exampleLib.parse "2025/01/01 12:00:00" = some ⟨63871329600000000000, none⟩ ∧
    ((perform exampleLib ⟨.absent, true⟩
          (.add "task A" "2025/01/01 12:00:00" sampleNow sampleNow)).msg =
        (perform exampleLib ⟨.data (some []), true⟩
          (.add "task A" "2025/01/01 12:00:00" sampleNow sampleNow)).msg ∧
      (perform exampleLib ⟨.absent, true⟩
          (.add "task A" "2025/01/01 12:00:00" sampleNow sampleNow)).disk.writable =
        (perform exampleLib ⟨.data (some []), true⟩
          (.add "task A" "2025/01/01 12:00:00" sampleNow sampleNow)).disk.writable ∧
      ((perform exampleLib ⟨.absent, true⟩
          (.add "task A" "2025/01/01 12:00:00" sampleNow sampleNow)).disk.file =
        (perform exampleLib ⟨.data (some []), true⟩
          (.add "task A" "2025/01/01 12:00:00" sampleNow sampleNow)).disk.file ∨
        ((perform exampleLib ⟨.absent, true⟩
            (.add "task A" "2025/01/01 12:00:00" sampleNow sampleNow)).disk =
            ⟨.absent, true⟩ ∧
          (perform exampleLib ⟨.data (some []), true⟩
            (.add "task A" "2025/01/01 12:00:00" sampleNow sampleNow)).disk =
            ⟨.data (some []), true⟩)) ∧
      list exampleLib ⟨.absent, true⟩ = list exampleLib ⟨.data (some []), true⟩) ∧
    add exampleLib.parse (loadTodos exampleLib ⟨.absent, true⟩).1 "task A"
        "2025/01/01 12:00:00" sampleNow sampleNow =
      ⟨.added "task A",
        some [{ ID := 1, Task := "task A", Done := false,
                Limit := ⟨63871329600000000000, none⟩, CreatedAt := sampleNow,
                UpdatedAt := sampleNow, DeletedAt := Time.zero, IsDone := false,
                IsDeleted := false }]⟩ :=
  ⟨rfl, by decide,
   (absent_document_is_empty exampleLib true).2.1 (some [])
     (.add "task A" "2025/01/01 12:00:00" sampleNow sampleNow) rfl,
   (absent_document_is_empty exampleLib true).2.2.1 "task A" "2025/01/01 12:00:00"
     sampleNow sampleNow ⟨63871329600000000000, none⟩ (by decide)⟩

/-! ## The command loop -/

theorem dispatch_done {Doc : Type} (lib : Lib Doc) (command : String) (args : List String)
    (hc : command = "done" ∨ command = "d") :
    dispatch lib command args =
      match args with
      | [] => .missingID
      | a :: _ =>
        match lib.atoi a with
        | none => .badID
        | some id => .callDone id := by
  rcases hc with rfl | rfl <;> cases args <;> simp [dispatch]

theorem dispatch_delete {Doc : Type} (lib : Lib Doc) (command : String) (args : List String)
    (hc : command = "delete" ∨ command = "del") :
    dispatch lib command args =
      match args with
      | [] => .missingID
      | a :: _ =>
        match lib.atoi a with
        | none => .badID
        | some id => .callDelete id := by
  rcases hc with rfl | rfl <;> cases args <;> simp [dispatch]

theorem dispatch_ne_crash {Doc : Type} (lib : Lib Doc) (command : String)
    (args : List String) : dispatch lib command args ≠ .crash := by
  unfold dispatch
  cases args with
  | nil => simp only [List.length_nil, if_true]; split_ifs <;> simp
  | cons a rest =>
    simp only [List.length_cons, Nat.add_one_ne_zero, if_false, List.getElem?_cons_zero]
    split_ifs <;> cases lib.atoi a <;> simp

theorem dropWhile_head (p : Char → Bool) :
    ∀ (l : List Char) (h : Char) (tl : List Char), l.dropWhile p = h :: tl → p h = false := by
  intro l
  induction l with
  | nil => intro h tl e; simp at e
  | cons c cs ih =>
    intro h tl e
    cases hp : p c with
    | true =>
      rw [List.dropWhile_cons_of_pos hp] at e
      exact ih h tl e
    | false =>
      rw [List.dropWhile_cons_of_neg (by simp [hp])] at e
      cases e
      exact hp

theorem fieldsFrom_ne_nil (p : Char → Bool) :
    ∀ (l cur : List Char), ((∃ c ∈ l, p c = false) ∨ cur ≠ []) → fieldsFrom p l cur ≠ [] := by
  intro l
  induction l with
  | nil =>
    intro cur h
    rcases h with ⟨c, hc, _⟩ | h
    · cases hc
    · cases cur with
      | nil => exact absurd rfl h
      | cons x xs => simp [fieldsFrom]
  | cons c cs ih =>
    intro cur h
    cases hp : p c with
    | true =>
      cases cur with
      | nil =>
        have hex : ∃ x ∈ cs, p x = false := by
          rcases h with ⟨x, hx, hpx⟩ | h
          · rcases List.mem_cons.mp hx with rfl | hx
            · rw [hp] at hpx; cases hpx
            · exact ⟨x, hx, hpx⟩
          · exact absurd rfl h
        simpa [fieldsFrom, hp] using ih [] (Or.inl hex)
      | cons x xs => simp [fieldsFrom, hp]
    | false =>
      simpa [fieldsFrom, hp] using ih (c :: cur) (Or.inr (by simp))

theorem fields_trimSpace_ne_nil (p : Char → Bool) (line : String)
    (h : trimSpace p line ≠ "") : fields p (trimSpace p line) ≠ [] := by
  unfold fields
  apply fieldsFrom_ne_nil
  left
  have hdata : (trimSpace p line).data ≠ [] := by
    intro e
    apply h
    exact String.ext e
  simp only [trimSpace] at hdata ⊢
  cases hx : List.dropWhile p (List.dropWhile p line.data).reverse with
  | nil => simp [hx] at hdata
  | cons c tl =>
    exact ⟨c, by simp, dropWhile_head p _ c tl hx⟩

theorem action_ne_crash {Doc : Type} (lib : Lib Doc) (line : String) :
    action lib line ≠ .crash := by
  unfold action
  by_cases h : trimSpace lib.isSpace line = ""
  · simp [h]
  · simp only [h, if_false]
    have hne := fields_trimSpace_ne_nil lib.isSpace line h
    cases hf : fields lib.isSpace (trimSpace lib.isSpace line) with
    | nil => exact absurd hf hne
    | cons command args => exact dispatch_ne_crash lib command args

/-- C16, as stated, fails: with two or three arguments the commands done and
del still call `done` and `deleteTodo`, on the first argument. -/
theorem extra_arguments_are_ignored :
    dispatch exampleLib "done" ["1", "2"] = .callDone 1 ∧
    dispatch exampleLib "del" ["3", "x", "y"] = .callDelete 3 ∧
    action exampleLib "done 1 2\n" = .callDone 1 := by
  decide

/-- C16, amended: for the commands done/d and delete/del the loop calls
complete or softDelete exactly when there is at least one argument and the
first argument parses as an integer, and calls it on that integer; arguments
after the first are not read.  With no argument, or a first argument that is
not an integer, it prints a message and leaves the disk as it was. -/
theorem id_commands_read_first_argument {Doc : Type} (lib : Lib Doc) (command : String)
    (args : List String) :
    ((command = "done" ∨ command = "d") →
      (args = [] → dispatch lib command args = .missingID) ∧
      (∀ a rest, args = a :: rest → lib.atoi a = none →
        dispatch lib command args = .badID) ∧
      (∀ id, dispatch lib command args = .callDone id ↔
        ∃ a rest, args = a :: rest ∧ lib.atoi a = some id)) ∧
    ((command = "delete" ∨ command = "del") →
      (args = [] → dispatch lib command args = .missingID) ∧
      (∀ a rest, args = a :: rest → lib.atoi a = none →
        dispatch lib command args = .badID) ∧
      (∀ id, dispatch lib command args = .callDelete id ↔
        ∃ a rest, args = a :: rest ∧ lib.atoi a = some id)) ∧
    (∀ (d : Disk Doc) (deadline : String) (now1 now2 : Time),
      Action.run lib d deadline now1 now2 .missingID = (d, "⚠️ IDを入力してください\n") ∧
      Action.run lib d deadline now1 now2 .badID = (d, "⚠️ 数値のIDを入力してください\n")) := by
  refine ⟨?_, ?_, fun d deadline now1 now2 => ⟨rfl, rfl⟩⟩
  · intro hc
    rw [dispatch_done lib command args hc]
    refine ⟨?_, ?_, ?_⟩
    · rintro rfl; rfl
    · rintro a rest rfl ha
      simp [ha]
    · intro id
      cases args with
      | nil => simp
      | cons a rest =>
        cases ha : lib.atoi a <;> simp [ha]
  · intro hc
    rw [dispatch_delete lib command args hc]
    refine ⟨?_, ?_, ?_⟩
    · rintro rfl; rfl
    · rintro a rest rfl ha
      simp [ha]
    · intro id
      cases args with
      | nil => simp
      | cons a rest =>
        cases ha : lib.atoi a <;> simp [ha]

theorem id_commands_read_first_argument_witness :
    (dispatch exampleLib "d" [] = .missingID ∧
      dispatch exampleLib "done" ["one", "2"] = .badID ∧
      dispatch exampleLib "done" ["1", "2"] = .callDone 1) ∧
    (dispatch exampleLib "delete" [] = .missingID ∧
      dispatch exampleLib "del" ["one"] = .badID ∧
      dispatch exampleLib "del" ["7"] = .callDelete 7) :=
  ⟨⟨((id_commands_read_first_argument exampleLib "d" []).1 (Or.inr rfl)).1 rfl,
    ((id_commands_read_first_argument exampleLib "done" ["one", "2"]).1 (Or.inl rfl)).2.1
      "one" ["2"] rfl (by decide),
    (((id_commands_read_first_argument exampleLib "done" ["1", "2"]).1 (Or.inl rfl)).2.2
      1).2 ⟨"1", ["2"], rfl, by decide⟩⟩,
   ⟨((id_commands_read_first_argument exampleLib "delete" []).2.1 (Or.inl rfl)).1 rfl,
    ((id_commands_read_first_argument exampleLib "del" ["one"]).2.1 (Or.inr rfl)).2.1
      "one" [] rfl (by decide),
    (((id_commands_read_first_argument exampleLib "del" ["7"]).2.1 (Or.inr rfl)).2.2
      7).2 ⟨"7", [], rfl, by decide⟩⟩⟩

/-- C17: for every input line the loop never indexes out of range: when the
trimmed line is not empty its list of tokens is not empty, so `parts[0]`
exists; done and delete read `args[0]` only behind the test that an argument
is present; so no line, whatever its command and arguments, makes the loop
crash. -/
theorem loop_never_indexes_out_of_range {Doc : Type} (lib : Lib Doc) (line : String) :
    action lib line ≠ .crash ∧
    (trimSpace lib.isSpace line ≠ "" →
      fields lib.isSpace (trimSpace lib.isSpace line) ≠ []) ∧
    (∀ command args, dispatch lib command args ≠ .crash) :=
  ⟨action_ne_crash lib line, fields_trimSpace_ne_nil lib.isSpace line,
    dispatch_ne_crash lib⟩

theorem loop_never_indexes_out_of_range_witness :
    trimSpace exampleLib.isSpace "  frobnicate now \n" ≠ "" ∧
    action exampleLib "  frobnicate now \n" = .unknown "frobnicate" ∧
    action exampleLib "  frobnicate now \n" ≠ .crash ∧
    fields exampleLib.isSpace (trimSpace exampleLib.isSpace "  frobnicate now \n") ≠ [] :=
  ⟨by decide, by decide,
   (loop_never_indexes_out_of_range exampleLib "  frobnicate now \n").1,
   (loop_never_indexes_out_of_range exampleLib "  frobnicate now \n").2.1 (by decide)⟩

end TodoCLI
